import Mathlib

set_option maxRecDepth 8000

/-
Shallow embedding of the kresp RESP parser and encoder
(src/buffer.rs, src/config.rs, src/parser.rs, src/resp.rs).

Modelling conventions:
* Rust byte buffers (`&[u8]`, `Vec<u8>`) are `List Nat` whose entries are byte
  values; slice bounds become `List.take`/`List.drop`.
* A Rust `String` is modelled by its UTF-8 byte sequence (`List Nat`); the
  `to_str()?` conversion in `readline` becomes a UTF-8 validity test whose
  success returns the bytes themselves.  For valid UTF-8, `contains('\n')` on
  the string coincides with membership of byte 10 in the byte list.
* `anyhow::Error` values are collapsed onto the constructors of `ParserError`
  below; the formatted message text of `ParserError::ReadlineError` is replaced
  by the data it is built from (which byte followed the carriage return).
* The recursive state machine of `RespParser` and the driver loop of `read`
  are written with an explicit fuel parameter; fuel exhaustion is the extra
  `Option.none` result, distinct from every behaviour of the Rust code.
  The `while elements.len() < size` loop inside `get_array` is expressed by
  re-entering `processState` on the array state extended with the freshly
  completed element, which performs exactly the same tests in the same order.
-/

/-- First index at or after the start of the list holding the given byte,
mirroring `bstr::find_byte` on a subslice. -/
def findByteFrom (buffer : List Nat) (cursor : Nat) (b : Nat) : Option Nat :=
  (buffer.drop cursor).findIdx? (fun x => x == b)

/-- Is the byte a UTF-8 continuation byte? -/
def isCont (b : Nat) : Bool := 128 ≤ b && b ≤ 191

/-- One UTF-8 character step, as checked by Rust\'s `core::str::from_utf8`:
given a lead byte and the bytes after it, return the bytes following the
encoded character, or fail (rejecting overlong forms, surrogates and values
above U+10FFFF). -/
def utf8Step (b : Nat) (rest : List Nat) : Option (List Nat) :=
  if b ≤ 127 then Option.some rest
  else if 194 ≤ b && b ≤ 223 then
    match rest with
    | c :: r => if isCont c then Option.some r else Option.none
    | [] => Option.none
  else if b = 224 then
    match rest with
    | c1 :: c2 :: r =>
      if (160 ≤ c1 && c1 ≤ 191) && isCont c2 then Option.some r else Option.none
    | _ => Option.none
  else if (225 ≤ b && b ≤ 236) || b = 238 || b = 239 then
    match rest with
    | c1 :: c2 :: r => if isCont c1 && isCont c2 then Option.some r else Option.none
    | _ => Option.none
  else if b = 237 then
    match rest with
    | c1 :: c2 :: r =>
      if (128 ≤ c1 && c1 ≤ 159) && isCont c2 then Option.some r else Option.none
    | _ => Option.none
  else if b = 240 then
    match rest with
    | c1 :: c2 :: c3 :: r =>
      if (144 ≤ c1 && c1 ≤ 191) && isCont c2 && isCont c3 then Option.some r
      else Option.none
    | _ => Option.none
  else if 241 ≤ b && b ≤ 243 then
    match rest with
    | c1 :: c2 :: c3 :: r =>
      if isCont c1 && isCont c2 && isCont c3 then Option.some r else Option.none
    | _ => Option.none
  else if b = 244 then
    match rest with
    | c1 :: c2 :: c3 :: r =>
      if (128 ≤ c1 && c1 ≤ 143) && isCont c2 && isCont c3 then Option.some r
      else Option.none
    | _ => Option.none
  else Option.none

/-- Character-by-character UTF-8 validation; the fuel dominates the number of
characters, which the byte length always does. -/
def utf8ValidF : Nat → List Nat → Bool
  | _, [] => true
  | 0, _ :: _ => false
  | fuel + 1, b :: rest =>
    match utf8Step b rest with
    | Option.some r => utf8ValidF fuel r
    | Option.none => false

/-- Strict UTF-8 validity of a byte sequence, as checked by Rust\'s
`core::str::from_utf8`. -/
def utf8Valid (s : List Nat) : Bool := utf8ValidF s.length s

/-- The error enumeration of `src/parser.rs` (`ParserError`), together with the
two `anyhow` error kinds that can pass through `readline`/`readsize`/
`get_simple` (`Utf8Error` from `to_str()?` and `ParseIntError` from
`line.parse()?`).  `readlineExpected b` stands for
`ReadlineError("expected '\n' after '\r', got b")` and `readlinePremature`
for `ReadlineError("line contains premature \n")`. -/
inductive ParserError
  | readlinePremature
  | readlineExpected (got : Nat)
  | utf8Error
  | readsizeError (i : Int)
  | parseIntError
  | stateError
  | typeTokenError (b : Nat)
  | sizeExceededError
deriving DecidableEq

instance {e a : Type} [DecidableEq e] [DecidableEq a] : DecidableEq (Except e a) := fun x y =>
  match x, y with
  | Except.ok u, Except.ok v =>
    if h : u = v then Decidable.isTrue (congrArg Except.ok h)
    else Decidable.isFalse (fun hc => h (Except.ok.inj hc))
  | Except.error u, Except.error v =>
    if h : u = v then Decidable.isTrue (congrArg Except.error h)
    else Decidable.isFalse (fun hc => h (Except.error.inj hc))
  | Except.ok _, Except.error _ => Decidable.isFalse (fun hc => Except.noConfusion hc)
  | Except.error _, Except.ok _ => Decidable.isFalse (fun hc => Except.noConfusion hc)

/-- `ReadlineResult` of src/buffer.rs. -/
inductive ReadlineResult
  | line (line : List Nat) (cursor : Nat)
  | none (cursor : Nat)
deriving DecidableEq

/-- `readline` of src/buffer.rs. -/
def readline (buffer : List Nat) (cursor start : Nat) : Except ParserError ReadlineResult :=
  match findByteFrom buffer cursor 13 with
  | Option.some cr =>
    let endPos := cursor + cr
    let lengthNeeded := endPos + 2
    if lengthNeeded ≤ buffer.length then
      if buffer.getD (lengthNeeded - 1) 0 = 10 then
        let line := (buffer.take endPos).drop start
        if utf8Valid line then
          if line.contains 10 then Except.error ParserError.readlinePremature
          else Except.ok (ReadlineResult.line line lengthNeeded)
        else Except.error ParserError.utf8Error
      else Except.error (ParserError.readlineExpected (buffer.getD (cr + 1) 0))
    else Except.ok (ReadlineResult.none (buffer.length - 1))
  | Option.none => Except.ok (ReadlineResult.none buffer.length)

/-- `readbuffer` of src/buffer.rs. -/
def readbuffer (buffer : List Nat) (cursor size : Nat) : Option (List Nat × Nat) :=
  let endPos := cursor + size + 2
  if endPos ≤ buffer.length then Option.some ((buffer.drop cursor).take size, endPos)
  else Option.none

/-- Is the byte an ASCII decimal digit? -/
def isDigit (b : Nat) : Bool := 48 ≤ b && b ≤ 57

/-- Numeric value of a big-endian list of ASCII digit bytes. -/
def digitsToNat (l : List Nat) : Nat := l.foldl (fun acc b => acc * 10 + (b - 48)) 0

def i64Min : Int := -(2 ^ 63)

def i64Max : Int := 2 ^ 63 - 1

/-- Model of Rust `str::parse::<i64>`: an optional leading `+` or `-` sign
followed by at least one ASCII decimal digit, whose value must fit in the
signed 64-bit range; anything else is a `ParseIntError`. -/
def parseI64 (s : List Nat) : Except ParserError Int :=
  match s with
  | 43 :: rest => parseI64Digits 1 rest
  | 45 :: rest => parseI64Digits (-1) rest
  | _ => parseI64Digits 1 s
where
  parseI64Digits (sign : Int) (digits : List Nat) : Except ParserError Int :=
    if digits = [] then Except.error ParserError.parseIntError
    else if digits.all isDigit then
      let v : Int := sign * (digitsToNat digits : Nat)
      if i64Min ≤ v ∧ v ≤ i64Max then Except.ok v else Except.error ParserError.parseIntError
    else Except.error ParserError.parseIntError

/-- `ReadsizeResult` of src/buffer.rs. -/
inductive ReadsizeResult
  | size (endPos sz : Nat)
  | null (endPos : Nat)
  | none (endPos : Nat)
deriving DecidableEq

/-- `readsize` of src/buffer.rs.  `size.try_into()` from a non-negative `i64`
into `usize` always succeeds on a 64-bit target and is modelled by `Int.toNat`. -/
def readsize (buffer : List Nat) (cursor start : Nat) : Except ParserError ReadsizeResult :=
  match readline buffer cursor start with
  | Except.error e => Except.error e
  | Except.ok (ReadlineResult.line line endPos) =>
    match parseI64 line with
    | Except.error e => Except.error e
    | Except.ok sz =>
      if sz < -1 then Except.error (ParserError.readsizeError sz)
      else if sz = -1 then Except.ok (ReadsizeResult.null endPos)
      else Except.ok (ReadsizeResult.size endPos sz.toNat)
  | Except.ok (ReadlineResult.none endPos) => Except.ok (ReadsizeResult.none endPos)

/-- `RespType` of src/resp.rs, with Rust strings replaced by their UTF-8 bytes. -/
inductive RespType
  | simpleString (s : List Nat)
  | error (s : List Nat)
  | integer (i : Int)
  | bulkString (b : List Nat)
  | array (a : List RespType)
  | null
  | nullArray

/-- Big-endian ASCII decimal digits of a natural number (helper, fuelled by the
number itself). -/
def natDecimalAux : Nat → Nat → List Nat
  | 0, _ => []
  | _ + 1, 0 => []
  | fuel + 1, n + 1 => natDecimalAux fuel ((n + 1) / 10) ++ [(n + 1) % 10 + 48]

/-- ASCII decimal rendering of a natural number, as Rust `usize::to_string`. -/
def natDecimal (n : Nat) : List Nat := if n = 0 then [48] else natDecimalAux n n

/-- ASCII decimal rendering of an integer, as Rust `i64::to_string`. -/
def intDecimal (i : Int) : List Nat :=
  if i < 0 then 45 :: natDecimal (-i).toNat else natDecimal i.toNat

mutual

/-- `RespType::as_bytes` of src/resp.rs. -/
def RespType.as_bytes : RespType → List Nat
  | RespType.simpleString s => 43 :: (s ++ [13, 10])
  | RespType.error s => 45 :: (s ++ [13, 10])
  | RespType.integer i => 58 :: (intDecimal i ++ [13, 10])
  | RespType.bulkString b => 36 :: (natDecimal b.length ++ [13, 10] ++ b ++ [13, 10])
  | RespType.array a => 42 :: (natDecimal a.length ++ [13, 10] ++ RespType.listBytes a)
  | RespType.null => [36, 45, 49, 13, 10]
  | RespType.nullArray => [42, 45, 49, 13, 10]

/-- Concatenated encodings of a list of values (the `for` loop in the `Array`
arm of `as_bytes`). -/
def RespType.listBytes : List RespType → List Nat
  | [] => []
  | v :: vs => RespType.as_bytes v ++ RespType.listBytes vs

end

/-- `RespType::simple_string`, the guarded constructor of src/resp.rs. -/
def RespType.simple_string (s : List Nat) : Option RespType :=
  if s.contains 13 || s.contains 10 then Option.none
  else Option.some (RespType.simpleString s)

/-- `RespType::error`, the guarded constructor of src/resp.rs. -/
def RespType.mkError (s : List Nat) : Option RespType :=
  if s.contains 13 || s.contains 10 then Option.none
  else Option.some (RespType.error s)

/-- `RespConfig` of src/config.rs. -/
structure RespConfig where
  max_resp_size : Nat
  max_buffer_size : Nat
deriving DecidableEq

/-- `RespConfig::new`. -/
def RespConfig.new (r b : Nat) : RespConfig := ⟨r, b⟩

/-- `RespConfig::default`: both limits are 512 MiB. -/
def RespConfig.defaultConfig : RespConfig := ⟨536870912, 536870912⟩

/-- `SimpleType` of src/parser.rs. -/
inductive SimpleType
  | string
  | err
  | integer
deriving DecidableEq

/-- `State` of src/parser.rs (heap indirection through `Box` is immaterial). -/
inductive State
  | getType (cursor : Nat)
  | simple (cursor start : Nat) (simple_type : SimpleType)
  | bulkString (cursor start : Nat) (size : Option Nat)
  | array (cursor start : Nat) (size : Option Nat)
      (elements : Option (List RespType)) (substate : Option State)

/-- `StateResult` of src/parser.rs. -/
inductive StateResult
  | incomplete (s : State)
  | done (v : RespType) (endPos : Nat)

/-- Phase 2 of `RespParser::get_bulk_string`: the `size` check followed by
`readbuffer`. -/
def bulkPhase2 (config : RespConfig) (buffer : List Nat) (cursor start size : Nat) :
    Option (Except ParserError StateResult) :=
  if config.max_resp_size < size then Option.some (Except.error ParserError.sizeExceededError)
  else
    match readbuffer buffer cursor size with
    | Option.some (data, e2) =>
      Option.some (Except.ok (StateResult.done (RespType.bulkString data) e2))
    | Option.none =>
      Option.some (Except.ok (StateResult.incomplete
        (State.bulkString cursor start (Option.some size))))

/-- `RespParser::process_state` together with the four handlers
`get_type`, `get_simple`, `get_bulk_string` and `get_array` of src/parser.rs.
The `while` loop of `get_array` is unrolled through the recursive call on the
array state carrying one more completed element.  `Option.none` is fuel
exhaustion and corresponds to no behaviour of the source. -/
def processState (config : RespConfig) (buffer : List Nat) :
    Nat → State → Option (Except ParserError StateResult)
  | 0, _ => Option.none
  | fuel + 1, State.getType cursor =>
    if buffer.length ≤ cursor then
      Option.some (Except.ok (StateResult.incomplete (State.getType cursor)))
    else
      let b := buffer.getD cursor 0
      let nextCursor := cursor + 1
      let next : Except ParserError State :=
        if b = 43 then Except.ok (State.simple nextCursor nextCursor SimpleType.string)
        else if b = 45 then Except.ok (State.simple nextCursor nextCursor SimpleType.err)
        else if b = 58 then Except.ok (State.simple nextCursor nextCursor SimpleType.integer)
        else if b = 36 then Except.ok (State.bulkString nextCursor nextCursor Option.none)
        else if b = 42 then
          Except.ok (State.array nextCursor nextCursor Option.none Option.none Option.none)
        else Except.error (ParserError.typeTokenError b)
      match next with
      | Except.error e => Option.some (Except.error e)
      | Except.ok s =>
        if cursor + 1 < buffer.length then processState config buffer fuel s
        else Option.some (Except.ok (StateResult.incomplete s))
  | _ + 1, State.simple cursor start ty =>
    match readline buffer cursor start with
    | Except.error e => Option.some (Except.error e)
    | Except.ok (ReadlineResult.line line endPos) =>
      if config.max_resp_size < line.length then
        Option.some (Except.error ParserError.sizeExceededError)
      else
        match ty with
        | SimpleType.string =>
          Option.some (Except.ok (StateResult.done (RespType.simpleString line) endPos))
        | SimpleType.err =>
          Option.some (Except.ok (StateResult.done (RespType.error line) endPos))
        | SimpleType.integer =>
          match parseI64 line with
          | Except.ok i => Option.some (Except.ok (StateResult.done (RespType.integer i) endPos))
          | Except.error e => Option.some (Except.error e)
    | Except.ok (ReadlineResult.none endPos) =>
      Option.some (Except.ok (StateResult.incomplete (State.simple endPos start ty)))
  | _ + 1, State.bulkString cursor start sizeOpt =>
    match sizeOpt with
    | Option.none =>
      match readsize buffer cursor start with
      | Except.error e => Option.some (Except.error e)
      | Except.ok (ReadsizeResult.none endPos) =>
        Option.some (Except.ok (StateResult.incomplete
          (State.bulkString endPos start Option.none)))
      | Except.ok (ReadsizeResult.null endPos) =>
        Option.some (Except.ok (StateResult.done RespType.null endPos))
      | Except.ok (ReadsizeResult.size endPos size) => bulkPhase2 config buffer endPos start size
    | Option.some size => bulkPhase2 config buffer cursor start size
  | fuel + 1, State.array cursor start sizeOpt elementsOpt substateOpt =>
    match sizeOpt with
    | Option.none =>
      match readsize buffer cursor start with
      | Except.error e => Option.some (Except.error e)
      | Except.ok (ReadsizeResult.none endPos) =>
        Option.some (Except.ok (StateResult.incomplete
          (State.array endPos start Option.none Option.none Option.none)))
      | Except.ok (ReadsizeResult.null endPos) =>
        Option.some (Except.ok (StateResult.done RespType.nullArray endPos))
      | Except.ok (ReadsizeResult.size endPos size) =>
        if size = 0 then
          Option.some (Except.ok (StateResult.done (RespType.array []) endPos))
        else
          processState config buffer fuel
            (State.array endPos start (Option.some size) (Option.some []) Option.none)
    | Option.some size =>
      if config.max_resp_size < size then
        Option.some (Except.error ParserError.sizeExceededError)
      else
        let elements := elementsOpt.getD []
        if elements.length < size then
          let child := substateOpt.getD (State.getType cursor)
          match processState config buffer fuel child with
          | Option.none => Option.none
          | Option.some (Except.error e) => Option.some (Except.error e)
          | Option.some (Except.ok (StateResult.done v endPos)) =>
            processState config buffer fuel
              (State.array endPos start (Option.some size)
                (Option.some (elements ++ [v])) Option.none)
          | Option.some (Except.ok (StateResult.incomplete sub)) =>
            Option.some (Except.ok (StateResult.incomplete
              (State.array cursor start (Option.some size)
                (Option.some elements) (Option.some sub))))
        else
          Option.some (Except.ok (StateResult.done (RespType.array elements) cursor))

/-- `RespParser` of src/parser.rs. -/
structure RespParser where
  buffer : List Nat
  state : Option State
  config : RespConfig

/-- `RespParser::new`. -/
def RespParser.new (config : RespConfig) : RespParser := ⟨[], Option.none, config⟩

/-- `RespParser::default`. -/
def RespParser.defaultParser : RespParser := RespParser.new RespConfig.defaultConfig

/-- The `loop` over `get_next` at the end of `RespParser::read`: repeatedly
start at `GetType(cursor=0)`, drain each completed frame, and stop at the first
`Incomplete` (saving its state) or error (clearing the buffer). -/
def readLoop (config : RespConfig) (pfuel : Nat) :
    Nat → List Nat → List RespType →
    Option (Except ParserError (List RespType) × List Nat × Option State)
  | 0, _, _ => Option.none
  | lfuel + 1, buffer, items =>
    match processState config buffer pfuel (State.getType 0) with
    | Option.none => Option.none
    | Option.some (Except.error e) => Option.some (Except.error e, [], Option.none)
    | Option.some (Except.ok (StateResult.incomplete s)) =>
      Option.some (Except.ok items, buffer, Option.some s)
    | Option.some (Except.ok (StateResult.done v endPos)) =>
      readLoop config pfuel lfuel (buffer.drop endPos) (items ++ [v])

/-- `RespParser::read` of src/parser.rs: append the chunk, enforce
`max_buffer_size` (clearing the buffer but keeping the saved state on
violation), resume a saved state if present, then run the `get_next` loop. -/
def RespParser.read (fuel : Nat) (p : RespParser) (chunk : List Nat) :
    Option (Except ParserError (List RespType) × RespParser) :=
  let buffer := p.buffer ++ chunk
  if p.config.max_buffer_size < buffer.length then
    Option.some (Except.error ParserError.sizeExceededError, ⟨[], p.state, p.config⟩)
  else
    match p.state with
    | Option.none =>
      match readLoop p.config fuel fuel buffer [] with
      | Option.none => Option.none
      | Option.some (r, buf, st) => Option.some (r, ⟨buf, st, p.config⟩)
    | Option.some s =>
      match processState p.config buffer fuel s with
      | Option.none => Option.none
      | Option.some (Except.error e) =>
        Option.some (Except.error e, ⟨[], Option.none, p.config⟩)
      | Option.some (Except.ok (StateResult.incomplete s1)) =>
        Option.some (Except.ok [], ⟨buffer, Option.some s1, p.config⟩)
      | Option.some (Except.ok (StateResult.done v endPos)) =>
        match readLoop p.config fuel fuel (buffer.drop endPos) [v] with
        | Option.none => Option.none
        | Option.some (r, buf, st) => Option.some (r, ⟨buf, st, p.config⟩)

/-- Successive `read` calls, one chunk at a time, collecting the value list of
each call.  Stops at the first error (returning it) as a caller would. -/
def feedAll (fuel : Nat) (p : RespParser) :
    List (List Nat) → Option (Except ParserError (List (List RespType)) × RespParser)
  | [] => Option.some (Except.ok [], p)
  | c :: cs =>
    match p.read fuel c with
    | Option.none => Option.none
    | Option.some (Except.error e, q) => Option.some (Except.error e, q)
    | Option.some (Except.ok l, q) =>
      match feedAll fuel q cs with
      | Option.none => Option.none
      | Option.some (Except.error e, r) => Option.some (Except.error e, r)
      | Option.some (Except.ok ls, r) => Option.some (Except.ok (l :: ls), r)

/-- Byte list of an ASCII string literal (every character below 128), used for
concrete test vectors. -/
def asciiBytes (s : String) : List Nat := s.toList.map Char.toNat

example : readline (asciiBytes "hello!\r\n") 0 0 =
    Except.ok (ReadlineResult.line (asciiBytes "hello!") 8) := rfl

example : readline (asciiBytes "hello!") 0 0 = Except.ok (ReadlineResult.none 6) := rfl

example : readline (asciiBytes "hello!\r") 0 0 = Except.ok (ReadlineResult.none 6) := rfl

example : readline (asciiBytes "hello!\rx") 0 0 =
    Except.error (ParserError.readlineExpected 120) := rfl

example : readline (asciiBytes "hel\nlo!\r\n") 0 0 =
    Except.error ParserError.readlinePremature := rfl

example : readline (asciiBytes "123hello!\r\nextra") 3 0 =
    Except.ok (ReadlineResult.line (asciiBytes "123hello!") 11) := rfl

example : readbuffer (asciiBytes "test\r\n") 0 4 =
    Option.some (asciiBytes "test", 6) := rfl

example : readbuffer (asciiBytes "test\r") 0 4 = Option.none := rfl

example : readsize (asciiBytes "-1\r\n") 0 0 = Except.ok (ReadsizeResult.null 4) := rfl

example : readsize (asciiBytes "12\r\n") 0 0 = Except.ok (ReadsizeResult.size 4 12) := rfl

example : readsize (asciiBytes "-2\r\n") 0 0 =
    Except.error (ParserError.readsizeError (-2)) := rfl

example : RespParser.read 20 RespParser.defaultParser (asciiBytes "+Valid!\r\n") =
    Option.some (Except.ok [RespType.simpleString (asciiBytes "Valid!")],
      ⟨[], Option.some (State.getType 0), RespConfig.defaultConfig⟩) := rfl

example : RespParser.read 20 RespParser.defaultParser (asciiBytes ":-1234\r\n") =
    Option.some (Except.ok [RespType.integer (-1234)],
      ⟨[], Option.some (State.getType 0), RespConfig.defaultConfig⟩) := rfl

example : RespParser.read 20 RespParser.defaultParser (asciiBytes ":hi\r\n") =
    Option.some (Except.error ParserError.parseIntError,
      ⟨[], Option.none, RespConfig.defaultConfig⟩) := rfl

example : RespParser.read 40 RespParser.defaultParser
      (asciiBytes "$6\r\nValid!\r\n$5\r\nwooo!\r\n") =
    Option.some (Except.ok [RespType.bulkString (asciiBytes "Valid!"),
        RespType.bulkString (asciiBytes "wooo!")],
      ⟨[], Option.some (State.getType 0), RespConfig.defaultConfig⟩) := rfl

example : RespParser.read 40 RespParser.defaultParser (asciiBytes "*2\r\n$5\r\nhello\r\n$5\r\nworld\r\n") =
    Option.some (Except.ok [RespType.array [RespType.bulkString (asciiBytes "hello"),
        RespType.bulkString (asciiBytes "world")]],
      ⟨[], Option.some (State.getType 0), RespConfig.defaultConfig⟩) := rfl

example : RespParser.read 200 RespParser.defaultParser
      (asciiBytes "*3\r\n*-1\r\n*2\r\n$5\r\nhello\r\n$5\r\nworld\r\n*5\r\n+test\r\n-test3\r\n:-12345\r\n$2\r\nab\r\n$-1\r\n") =
    Option.some (Except.ok [RespType.array [RespType.nullArray,
        RespType.array [RespType.bulkString (asciiBytes "hello"),
          RespType.bulkString (asciiBytes "world")],
        RespType.array [RespType.simpleString (asciiBytes "test"),
          RespType.error (asciiBytes "test3"), RespType.integer (-12345),
          RespType.bulkString (asciiBytes "ab"), RespType.null]]],
      ⟨[], Option.some (State.getType 0), RespConfig.defaultConfig⟩) := rfl

example : feedAll 200 RespParser.defaultParser
      ((asciiBytes "*3\r\n*-1\r\n*2\r\n$5\r\nhello\r\n$5\r\nworld\r\n*5\r\n+test\r\n-test3\r\n:-12345\r\n$2\r\nab\r\n$-1\r\n").map (fun b => [b])) =
    Option.some (Except.ok (List.replicate 75 [] ++ [[RespType.array [RespType.nullArray,
        RespType.array [RespType.bulkString (asciiBytes "hello"),
          RespType.bulkString (asciiBytes "world")],
        RespType.array [RespType.simpleString (asciiBytes "test"),
          RespType.error (asciiBytes "test3"), RespType.integer (-12345),
          RespType.bulkString (asciiBytes "ab"), RespType.null]]]]),
      ⟨[], Option.some (State.getType 0), RespConfig.defaultConfig⟩) := rfl

/-! ### Characterisation of the byte search -/

theorem findByteFrom_eq_none_iff (buffer : List Nat) (cursor b : Nat) :
    findByteFrom buffer cursor b = Option.none ↔
      ∀ j, cursor ≤ j → j < buffer.length → buffer.getD j 0 ≠ b := by
  unfold findByteFrom
  rw [List.findIdx?_eq_none_iff]
  constructor
  · intro h j hcj hjl
    have hd : j - cursor < (buffer.drop cursor).length := by
      rw [List.length_drop]; omega
    have hx := h (buffer.drop cursor)[j - cursor] (List.getElem_mem hd)
    rw [List.getElem_drop] at hx
    have hgd : buffer.getD (cursor + (j - cursor)) 0 = buffer[cursor + (j - cursor)] :=
      List.getD_eq_getElem _ _ (by omega)
    rw [← hgd] at hx
    have hj : cursor + (j - cursor) = j := by omega
    rw [hj] at hx
    simpa using hx
  · intro h x hx
    rcases List.mem_iff_getElem.mp hx with ⟨n, hn, rfl⟩
    rw [List.getElem_drop]
    have hlen : cursor + n < buffer.length := by
      rw [List.length_drop] at hn; omega
    have hy := h (cursor + n) (by omega) hlen
    rw [List.getD_eq_getElem _ _ hlen] at hy
    simpa using hy

theorem findByteFrom_eq_some_iff (buffer : List Nat) (cursor b cr : Nat) :
    findByteFrom buffer cursor b = Option.some cr ↔
      cursor + cr < buffer.length ∧ buffer.getD (cursor + cr) 0 = b ∧
        ∀ j, cursor ≤ j → j < cursor + cr → buffer.getD j 0 ≠ b := by
  unfold findByteFrom
  rw [List.findIdx?_eq_some_iff_getElem]
  constructor
  · rintro ⟨h, hb, hfirst⟩
    rw [List.getElem_drop] at hb
    have hlen : cursor + cr < buffer.length := by
      rw [List.length_drop] at h; omega
    refine ⟨hlen, ?_, ?_⟩
    · rw [List.getD_eq_getElem _ _ hlen]
      simpa using hb
    · intro j hcj hji
      have hjd : j - cursor < (buffer.drop cursor).length := by
        rw [List.length_drop]; omega
      have hy := hfirst (j - cursor) (by omega)
      rw [List.getElem_drop] at hy
      have hgd : buffer.getD (cursor + (j - cursor)) 0 = buffer[cursor + (j - cursor)] :=
        List.getD_eq_getElem _ _ (by omega)
      rw [← hgd] at hy
      have hj : cursor + (j - cursor) = j := by omega
      rw [hj] at hy
      simpa using hy
  · rintro ⟨hlen, hb, hfirst⟩
    have h : cr < (buffer.drop cursor).length := by
      rw [List.length_drop]; omega
    refine ⟨h, ?_, ?_⟩
    · rw [List.getElem_drop]
      rw [List.getD_eq_getElem _ _ hlen] at hb
      simpa using hb
    · intro j hji
      have hjd : j < (buffer.drop cursor).length := by omega
      rw [List.getElem_drop]
      have hy := hfirst (cursor + j) (by omega) (by omega)
      rw [List.getD_eq_getElem _ _ (by omega : cursor + j < buffer.length)] at hy
      simpa using hy

/-- C3: the readline contract.  With `start ≤ cursor ≤ buf.length`: if no
carriage return occurs at or after `cursor`, the `None` result carries cursor
`buf.length`; if the first carriage return at or after `cursor` sits at index
`i`, then a missing successor byte gives the `None` result with cursor
`buf.length - 1`, a successor byte other than `\n` gives the framing error, a
line (the bytes `buf[start..i]`, whose UTF-8 decoding is modelled by the bytes
themselves) that is not valid UTF-8 gives the UTF-8 error, an embedded `\n`
in the line gives the premature-newline error, and otherwise the line is
returned with next cursor `i + 2`. -/
theorem claim_C3_readline_contract :
    (∀ (buffer : List Nat) (cursor start : Nat), start ≤ cursor → cursor ≤ buffer.length →
      (∀ j, cursor ≤ j → j < buffer.length → buffer.getD j 0 ≠ 13) →
      readline buffer cursor start = Except.ok (ReadlineResult.none buffer.length)) ∧
    (∀ (buffer : List Nat) (cursor start i : Nat), start ≤ cursor → cursor ≤ i →
      i < buffer.length → buffer.getD i 0 = 13 →
      (∀ j, cursor ≤ j → j < i → buffer.getD j 0 ≠ 13) →
      ((buffer.length = i + 1 →
          readline buffer cursor start = Except.ok (ReadlineResult.none (buffer.length - 1))) ∧
       (i + 1 < buffer.length → buffer.getD (i + 1) 0 ≠ 10 →
          readline buffer cursor start =
            Except.error (ParserError.readlineExpected (buffer.getD (i - cursor + 1) 0))) ∧
       (i + 1 < buffer.length → buffer.getD (i + 1) 0 = 10 →
          ¬ utf8Valid ((buffer.take i).drop start) →
          readline buffer cursor start = Except.error ParserError.utf8Error) ∧
       (i + 1 < buffer.length → buffer.getD (i + 1) 0 = 10 →
          utf8Valid ((buffer.take i).drop start) → 10 ∈ (buffer.take i).drop start →
          readline buffer cursor start = Except.error ParserError.readlinePremature) ∧
       (i + 1 < buffer.length → buffer.getD (i + 1) 0 = 10 →
          utf8Valid ((buffer.take i).drop start) → 10 ∉ (buffer.take i).drop start →
          readline buffer cursor start =
            Except.ok (ReadlineResult.line ((buffer.take i).drop start) (i + 2))))) := by
  constructor
  · intro buffer cursor start _ _ h
    have hf : findByteFrom buffer cursor 13 = Option.none :=
      (findByteFrom_eq_none_iff buffer cursor 13).mpr h
    unfold readline
    rw [hf]
  · intro buffer cursor start i hsc hci hil hcr hfirst
    have hf : findByteFrom buffer cursor 13 = Option.some (i - cursor) := by
      apply (findByteFrom_eq_some_iff buffer cursor 13 (i - cursor)).mpr
      have hee : cursor + (i - cursor) = i := by omega
      rw [hee]
      exact ⟨hil, hcr, fun j h1 h2 => hfirst j h1 h2⟩
    have hee : cursor + (i - cursor) = i := by omega
    refine ⟨?_, ?_, ?_, ?_, ?_⟩
    · intro hlen
      simp only [readline, hf, hee]
      rw [if_neg (by omega)]
    · intro h2 h10
      simp only [readline, hf, hee]
      rw [if_pos (by omega)]
      rw [if_neg (by simpa using h10)]
    · intro h2 h10 hu
      simp only [readline, hf, hee]
      rw [if_pos (by omega)]
      rw [if_pos (by simpa using h10)]
      rw [if_neg (by simpa using hu)]
    · intro h2 h10 hu hmem
      simp only [readline, hf, hee]
      rw [if_pos (by omega)]
      rw [if_pos (by simpa using h10)]
      rw [if_pos hu]
      rw [if_pos (by simpa [List.contains, List.elem_iff] using hmem)]
    · intro h2 h10 hu hmem
      simp only [readline, hf, hee]
      rw [if_pos (by omega)]
      rw [if_pos (by simpa using h10)]
      rw [if_pos hu]
      rw [if_neg (by simpa [List.contains, List.elem_iff] using hmem)]

/-- Witness for C3: the carriage return of `"ab\r\nX"` is found at index 2 and
the bytes before it are returned as the line, with next cursor 4. -/
theorem claim_C3_readline_contract_witness :
    readline (asciiBytes "ab\r\nX") 0 0 =
      Except.ok (ReadlineResult.line (asciiBytes "ab") 4) := by
  have h := (claim_C3_readline_contract.2 (asciiBytes "ab\r\nX") 0 0 2
    (by decide) (by decide) (by decide) (by decide)
    (by intro j h1 h2; interval_cases j <;> decide)).2.2.2.2
  exact h (by decide) (by decide) (by decide) (by decide)

/-- C4: the readsize contract: the line returned by `readline` is parsed as a
signed 64-bit integer; a value strictly below `-1` raises the invalid-size
error carrying that value, `-1` yields `Null`, any non-negative value yields
`Size`; an unparseable payload propagates the parse error; a `None` from
`readline` propagates as the `None` result; and the concrete input
`"$-2\r\n"` makes the parser fail with the invalid-size error carrying `-2`. -/
theorem claim_C4_readsize_contract :
    (∀ (buffer : List Nat) (cursor start : Nat) (line : List Nat) (nd : Nat) (v : Int),
      readline buffer cursor start = Except.ok (ReadlineResult.line line nd) →
      parseI64 line = Except.ok v →
      ((v < -1 → readsize buffer cursor start = Except.error (ParserError.readsizeError v)) ∧
       (v = -1 → readsize buffer cursor start = Except.ok (ReadsizeResult.null nd)) ∧
       (0 ≤ v → readsize buffer cursor start = Except.ok (ReadsizeResult.size nd v.toNat)))) ∧
    (∀ (buffer : List Nat) (cursor start : Nat) (line : List Nat) (nd : Nat) (e : ParserError),
      readline buffer cursor start = Except.ok (ReadlineResult.line line nd) →
      parseI64 line = Except.error e →
      readsize buffer cursor start = Except.error e) ∧
    (∀ (buffer : List Nat) (cursor start nd : Nat),
      readline buffer cursor start = Except.ok (ReadlineResult.none nd) →
      readsize buffer cursor start = Except.ok (ReadsizeResult.none nd)) ∧
    (∀ (buffer : List Nat) (cursor start : Nat) (e : ParserError),
      readline buffer cursor start = Except.error e →
      readsize buffer cursor start = Except.error e) ∧
    RespParser.read 20 RespParser.defaultParser (asciiBytes "$-2\r\n") =
      Option.some (Except.error (ParserError.readsizeError (-2)),
        ⟨[], Option.none, RespConfig.defaultConfig⟩) := by
  refine ⟨?_, ?_, ?_, ?_, rfl⟩
  · intro buffer cursor start line nd v hrl hp
    refine ⟨?_, ?_, ?_⟩
    · intro hv
      simp only [readsize, hrl, hp]
      rw [if_pos hv]
    · intro hv
      simp only [readsize, hrl, hp]
      rw [if_neg (by omega), if_pos hv]
    · intro hv
      simp only [readsize, hrl, hp]
      rw [if_neg (by omega), if_neg (by omega)]
  · intro buffer cursor start line nd e hrl hp
    simp only [readsize, hrl, hp]
  · intro buffer cursor start nd hrl
    simp only [readsize, hrl]
  · intro buffer cursor start e hrl
    simp only [readsize, hrl]

/-- Witness for C4: `"5\r\n"` holds the size line `5`, which readsize reports
as `Size` with end cursor 3 and size 5. -/
theorem claim_C4_readsize_contract_witness :
    readsize (asciiBytes "5\r\n") 0 0 = Except.ok (ReadsizeResult.size 3 5) := by
  have h := (claim_C4_readsize_contract.1 (asciiBytes "5\r\n") 0 0
    (asciiBytes "5") 3 5 (by decide) (by decide)).2.2 (by decide)
  simpa using h

/-- C5: `readbuffer` demands only that the two bytes after the payload exist:
it returns the payload slice and cursor `cursor + size + 2` exactly when the
buffer is long enough, never inspecting the two trailing bytes; consequently
the parser accepts a bulk-string frame whose terminator is not CRLF, e.g.
`"$4\r\ntestXY"` parses to the bulk string `"test"`. -/
theorem claim_C5_readbuffer_length_only :
    (∀ (buffer : List Nat) (cursor size : Nat),
      (readbuffer buffer cursor size =
          Option.some ((buffer.drop cursor).take size, cursor + size + 2) ↔
        cursor + size + 2 ≤ buffer.length)) ∧
    (∀ (buffer : List Nat) (cursor size : Nat),
      (readbuffer buffer cursor size = Option.none ↔ buffer.length < cursor + size + 2)) ∧
    RespParser.read 20 RespParser.defaultParser (asciiBytes "$4\r\ntestXY") =
      Option.some (Except.ok [RespType.bulkString (asciiBytes "test")],
        ⟨[], Option.some (State.getType 0), RespConfig.defaultConfig⟩) := by
  refine ⟨?_, ?_, rfl⟩
  · intro buffer cursor size
    unfold readbuffer
    by_cases h : cursor + size + 2 ≤ buffer.length
    · simp [h]
    · simp only [if_neg h]
      constructor
      · intro hc
        exact absurd hc (by simp)
      · intro hc
        omega
  · intro buffer cursor size
    unfold readbuffer
    by_cases h : cursor + size + 2 ≤ buffer.length
    · simp only [if_pos h]
      constructor
      · intro hc
        exact absurd hc (by simp)
      · intro hc
        omega
    · simp only [if_neg h]
      constructor
      · intro _
        omega
      · intro _
        trivial

/-- Witness for C5: with ten bytes available, `readbuffer` at cursor 4 and
size 4 returns the four payload bytes and cursor 10 (conclusion of the first
conjunct at a concrete input). -/
theorem claim_C5_readbuffer_length_only_witness :
    readbuffer (asciiBytes "$4\r\ntestXY") 4 4 =
      Option.some (asciiBytes "test", 10) := by
  have h := (claim_C5_readbuffer_length_only.1 (asciiBytes "$4\r\ntestXY") 4 4).mpr
    (by decide)
  simpa using h

/-- The integer payload syntax exactly as C8 words it: ASCII decimal digits
with an optional leading minus sign, in signed 64-bit range. -/
def i64ShapeMinusOnly (s : List Nat) : Prop :=
  ∃ (sign : Int) (ds : List Nat),
    ((sign = 1 ∧ s = ds) ∨ (sign = -1 ∧ s = 45 :: ds)) ∧
    ds ≠ [] ∧ (∀ b ∈ ds, 48 ≤ b ∧ b ≤ 57) ∧
    i64Min ≤ sign * (digitsToNat ds : Nat) ∧ sign * (digitsToNat ds : Nat) ≤ i64Max

/-- The payload syntax the code accepts: ASCII decimal digits with an optional
leading minus or plus sign, in signed 64-bit range. -/
def i64Shape (s : List Nat) : Prop :=
  ∃ (sign : Int) (ds : List Nat),
    ((sign = 1 ∧ (s = ds ∨ s = 43 :: ds)) ∨ (sign = -1 ∧ s = 45 :: ds)) ∧
    ds ≠ [] ∧ (∀ b ∈ ds, 48 ≤ b ∧ b ≤ 57) ∧
    i64Min ≤ sign * (digitsToNat ds : Nat) ∧ sign * (digitsToNat ds : Nat) ≤ i64Max

theorem isDigit_iff (b : Nat) : isDigit b = true ↔ 48 ≤ b ∧ b ≤ 57 := by
  simp [isDigit, Nat.le_div_iff_mul_le]

theorem parseI64_cons (b : Nat) (rest : List Nat) :
    parseI64 (b :: rest) =
      if b = 43 then parseI64.parseI64Digits 1 rest
      else if b = 45 then parseI64.parseI64Digits (-1) rest
      else parseI64.parseI64Digits 1 (b :: rest) := by
  unfold parseI64
  split
  · rename_i heq
    rw [List.cons.injEq] at heq
    rw [if_pos heq.1, heq.2]
  · rename_i heq
    rw [List.cons.injEq] at heq
    rw [if_neg (by omega), if_pos heq.1, heq.2]
  · rename_i h43 h45
    have hb43 : b ≠ 43 := fun hc => h43 rest (by rw [hc])
    have hb45 : b ≠ 45 := fun hc => h45 rest (by rw [hc])
    rw [if_neg hb43, if_neg hb45]

theorem parseI64Digits_ok_iff (sign : Int) (digits : List Nat) (v : Int) :
    parseI64.parseI64Digits sign digits = Except.ok v ↔
      digits ≠ [] ∧ (∀ b ∈ digits, 48 ≤ b ∧ b ≤ 57) ∧
        i64Min ≤ sign * (digitsToNat digits : Nat) ∧
        sign * (digitsToNat digits : Nat) ≤ i64Max ∧
        v = sign * (digitsToNat digits : Nat) := by
  unfold parseI64.parseI64Digits
  by_cases h0 : digits = []
  · simp [h0]
  · rw [if_neg h0]
    by_cases h1 : digits.all isDigit
    · rw [if_pos h1]
      have hall : ∀ b ∈ digits, 48 ≤ b ∧ b ≤ 57 := by
        intro b hb
        exact (isDigit_iff b).mp (List.all_eq_true.mp h1 b hb)
      by_cases h2 : i64Min ≤ sign * (digitsToNat digits : Nat) ∧
          sign * (digitsToNat digits : Nat) ≤ i64Max
      · rw [if_pos h2]
        simp only [Except.ok.injEq]
        constructor
        · intro hv
          exact ⟨h0, hall, h2.1, h2.2, hv.symm⟩
        · intro hv
          exact hv.2.2.2.2.symm
      · rw [if_neg h2]
        simp only [reduceCtorEq, false_iff]
        intro hc
        exact h2 ⟨hc.2.2.1, hc.2.2.2.1⟩
    · rw [if_neg h1]
      simp only [reduceCtorEq, false_iff]
      intro hc
      apply h1
      apply List.all_eq_true.mpr
      intro b hb
      exact (isDigit_iff b).mpr (hc.2.1 b hb)

/-- Counterexample to C8 as stated: the payload `"+5"` carries a leading plus
sign, which is not "ASCII decimal digits with an optional leading minus", yet
the code accepts it: `parseI64` returns 5 and the parser turns `":+5\r\n"`
into `Integer 5` instead of raising an error. -/
theorem claim_C8_counterexample :
    parseI64 (asciiBytes "+5") = Except.ok 5 ∧
    ¬ i64ShapeMinusOnly (asciiBytes "+5") ∧
    RespParser.read 20 RespParser.defaultParser (asciiBytes ":+5\r\n") =
      Option.some (Except.ok [RespType.integer 5],
        ⟨[], Option.some (State.getType 0), RespConfig.defaultConfig⟩) := by
  refine ⟨by decide, ?_, rfl⟩
  rintro ⟨sign, ds, hshape, hne, hdigits, -, -⟩
  rcases hshape with ⟨-, hds⟩ | ⟨-, hds⟩
  · have h43 : (43 : Nat) ∈ ds := by
      rw [← hds]
      decide
    have := hdigits 43 h43
    omega
  · have h0 := congrArg (fun l => l.headD 0) hds
    simp [asciiBytes] at h0

/-- C8 (amended): for the `:` integer type and for bulk-string and array
length prefixes the payload is parsed by `parseI64` (Rust
`str::parse::<i64>`), which accepts a payload exactly when it consists of
ASCII decimal digits with an optional leading minus or plus sign and lies in
the signed 64-bit range; every other payload raises an error. -/
theorem claim_C8_integer_syntax_amended (s : List Nat) :
    (∃ v, parseI64 s = Except.ok v) ↔ i64Shape s := by
  constructor
  · rintro ⟨v, hv⟩
    cases s with
    | nil =>
      have h := (parseI64Digits_ok_iff 1 [] v).mp hv
      exact absurd rfl h.1
    | cons b rest =>
      rw [parseI64_cons] at hv
      by_cases h43 : b = 43
      · rw [if_pos h43] at hv
        have h := (parseI64Digits_ok_iff 1 rest v).mp hv
        exact ⟨1, rest, Or.inl ⟨rfl, Or.inr (by rw [h43])⟩, h.1, h.2.1, h.2.2.1, h.2.2.2.1⟩
      · rw [if_neg h43] at hv
        by_cases h45 : b = 45
        · rw [if_pos h45] at hv
          have h := (parseI64Digits_ok_iff (-1) rest v).mp hv
          exact ⟨-1, rest, Or.inr ⟨rfl, by rw [h45]⟩, h.1, h.2.1, h.2.2.1, h.2.2.2.1⟩
        · rw [if_neg h45] at hv
          have h := (parseI64Digits_ok_iff 1 (b :: rest) v).mp hv
          exact ⟨1, b :: rest, Or.inl ⟨rfl, Or.inl rfl⟩, h.1, h.2.1, h.2.2.1, h.2.2.2.1⟩
  · rintro ⟨sign, ds, hshape, hne, hdigits, hlo, hhi⟩
    rcases hshape with ⟨hsign, hds⟩ | ⟨hsign, hds⟩
    · subst hsign
      rcases hds with rfl | rfl
      · refine ⟨(digitsToNat s : Nat), ?_⟩
        cases s with
        | nil => exact absurd rfl hne
        | cons b rest =>
          have hb : 48 ≤ b ∧ b ≤ 57 := hdigits b (by simp)
          rw [parseI64_cons, if_neg (by omega), if_neg (by omega)]
          exact (parseI64Digits_ok_iff 1 (b :: rest) _).mpr
            ⟨hne, hdigits, by simpa using hlo, by simpa using hhi, by simp⟩
      · refine ⟨(digitsToNat ds : Nat), ?_⟩
        rw [parseI64_cons, if_pos rfl]
        exact (parseI64Digits_ok_iff 1 ds _).mpr
          ⟨hne, hdigits, by simpa using hlo, by simpa using hhi, by simp⟩
    · subst hsign
      subst hds
      refine ⟨-(digitsToNat ds : Nat), ?_⟩
      rw [parseI64_cons, if_neg (by omega), if_pos rfl]
      exact (parseI64Digits_ok_iff (-1) ds _).mpr
        ⟨hne, hdigits, by simpa using hlo, by simpa using hhi, by simp⟩

/-- Witness for C8 (amended): `"-7"` is accepted, so it has the amended shape. -/
theorem claim_C8_integer_syntax_amended_witness : i64Shape (asciiBytes "-7") :=
  (claim_C8_integer_syntax_amended (asciiBytes "-7")).mp ⟨-7, by decide⟩

/-- An error result of the `get_next` loop always carries an empty buffer and
no saved state (the `self.buffer.clear()` on the error path of `read`). -/
theorem readLoop_error_state (config : RespConfig) (pfuel : Nat) :
    ∀ (lfuel : Nat) (buffer : List Nat) (items : List RespType) (e : ParserError)
      (buf : List Nat) (st : Option State),
      readLoop config pfuel lfuel buffer items = Option.some (Except.error e, buf, st) →
      buf = [] ∧ st = Option.none := by
  intro lfuel
  induction lfuel with
  | zero =>
    intro buffer items e buf st h
    simp [readLoop] at h
  | succ n ih =>
    intro buffer items e buf st h
    rw [readLoop] at h
    cases hp : processState config buffer pfuel (State.getType 0) with
    | none =>
      rw [hp] at h
      simp at h
    | some r =>
      rw [hp] at h
      match r with
      | Except.error e2 =>
        simp only [Option.some.injEq, Prod.mk.injEq] at h
        exact ⟨h.2.1.symm, h.2.2.symm⟩
      | Except.ok (StateResult.incomplete s) =>
        simp at h
      | Except.ok (StateResult.done v endPos) =>
        exact ih (buffer.drop endPos) (items ++ [v]) e buf st h

/-- C7: whenever a `read` call returns an error of any kind, the staging
buffer of the resulting parser is empty. -/
theorem claim_C7_error_clears_buffer :
    ∀ (fuel : Nat) (p : RespParser) (chunk : List Nat) (e : ParserError) (q : RespParser),
      RespParser.read fuel p chunk = Option.some (Except.error e, q) → q.buffer = [] := by
  intro fuel p chunk e q h
  rw [RespParser.read] at h
  by_cases hlim : p.config.max_buffer_size < (p.buffer ++ chunk).length
  · rw [if_pos hlim] at h
    simp only [Option.some.injEq, Prod.mk.injEq] at h
    rw [← h.2]
  · rw [if_neg hlim] at h
    cases hst : p.state with
    | none =>
      simp only [hst] at h
      cases hl : readLoop p.config fuel fuel (p.buffer ++ chunk) [] with
      | none =>
        simp only [hl] at h
        simp at h
      | some r =>
        simp only [hl] at h
        match r, hl with
        | (Except.error e2, buf, st), hl =>
          simp only [Option.some.injEq, Prod.mk.injEq] at h
          have hb := (readLoop_error_state p.config fuel fuel (p.buffer ++ chunk) [] e2 buf st hl).1
          rw [← h.2, hb]
        | (Except.ok l, buf, st), hl =>
          simp at h
    | some s =>
      simp only [hst] at h
      cases hp : processState p.config (p.buffer ++ chunk) fuel s with
      | none =>
        simp only [hp] at h
        simp at h
      | some r =>
        simp only [hp] at h
        match r with
        | Except.error e2 =>
          simp only [Option.some.injEq, Prod.mk.injEq] at h
          rw [← h.2]
        | Except.ok (StateResult.incomplete s1) =>
          simp at h
        | Except.ok (StateResult.done v endPos) =>
          cases hl : readLoop p.config fuel fuel ((p.buffer ++ chunk).drop endPos) [v] with
          | none =>
            simp only [hl] at h
            simp at h
          | some r2 =>
            simp only [hl] at h
            match r2, hl with
            | (Except.error e2, buf, st), hl =>
              simp only [Option.some.injEq, Prod.mk.injEq] at h
              have hb := (readLoop_error_state p.config fuel fuel
                ((p.buffer ++ chunk).drop endPos) [v] e2 buf st hl).1
              rw [← h.2, hb]
            | (Except.ok l, buf, st), hl =>
              simp at h

/-- Witness for C7: after the invalid-integer error on `":hi\r\n"` the
resulting parser has an empty staging buffer. -/
theorem claim_C7_error_clears_buffer_witness :
    (⟨[], Option.none, RespConfig.defaultConfig⟩ : RespParser).buffer = [] :=
  claim_C7_error_clears_buffer 20 RespParser.defaultParser (asciiBytes ":hi\r\n")
    ParserError.parseIntError ⟨[], Option.none, RespConfig.defaultConfig⟩ (by rfl)

/-- C6: bounds enforcement.  (a) If appending the fed bytes makes the staging
buffer exceed `max_buffer_size`, `read` clears the buffer and returns the
size-exceeded error.  (b) A parsed simple line longer than `max_resp_size`,
(c) a known bulk-string length above `max_resp_size`, (d) an array element
count above `max_resp_size`, and (e)/(f) a freshly read bulk or array size
above `max_resp_size` each make the state machine return the size-exceeded
error, so the `read` call that encounters them returns an error and emits no
value. -/
theorem claim_C6_bounds_enforcement :
    (∀ (fuel : Nat) (p : RespParser) (chunk : List Nat),
      p.config.max_buffer_size < (p.buffer ++ chunk).length →
      RespParser.read fuel p chunk =
        Option.some (Except.error ParserError.sizeExceededError, ⟨[], p.state, p.config⟩)) ∧
    (∀ (config : RespConfig) (buffer : List Nat) (fuel cursor start : Nat) (ty : SimpleType)
        (line : List Nat) (nd : Nat),
      readline buffer cursor start = Except.ok (ReadlineResult.line line nd) →
      config.max_resp_size < line.length →
      processState config buffer (fuel + 1) (State.simple cursor start ty) =
        Option.some (Except.error ParserError.sizeExceededError)) ∧
    (∀ (config : RespConfig) (buffer : List Nat) (fuel cursor start size : Nat),
      config.max_resp_size < size →
      processState config buffer (fuel + 1) (State.bulkString cursor start (Option.some size)) =
        Option.some (Except.error ParserError.sizeExceededError)) ∧
    (∀ (config : RespConfig) (buffer : List Nat) (fuel cursor start size : Nat)
        (elementsOpt : Option (List RespType)) (substateOpt : Option State),
      config.max_resp_size < size →
      processState config buffer (fuel + 1)
        (State.array cursor start (Option.some size) elementsOpt substateOpt) =
        Option.some (Except.error ParserError.sizeExceededError)) ∧
    (∀ (config : RespConfig) (buffer : List Nat) (fuel cursor start nd size : Nat),
      readsize buffer cursor start = Except.ok (ReadsizeResult.size nd size) →
      config.max_resp_size < size →
      processState config buffer (fuel + 1) (State.bulkString cursor start Option.none) =
        Option.some (Except.error ParserError.sizeExceededError)) ∧
    (∀ (config : RespConfig) (buffer : List Nat) (fuel cursor start nd size : Nat),
      readsize buffer cursor start = Except.ok (ReadsizeResult.size nd size) →
      size ≠ 0 → config.max_resp_size < size →
      processState config buffer (fuel + 2) (State.array cursor start Option.none
        Option.none Option.none) =
        Option.some (Except.error ParserError.sizeExceededError)) := by
  refine ⟨?_, ?_, ?_, ?_, ?_, ?_⟩
  · intro fuel p chunk h
    rw [RespParser.read]
    rw [if_pos h]
  · intro config buffer fuel cursor start ty line nd hrl hlen
    simp only [processState, hrl]
    rw [if_pos hlen]
  · intro config buffer fuel cursor start size hsz
    simp only [processState, bulkPhase2]
    rw [if_pos hsz]
  · intro config buffer fuel cursor start size elementsOpt substateOpt hsz
    simp only [processState]
    rw [if_pos hsz]
  · intro config buffer fuel cursor start nd size hrs hsz
    simp only [processState, hrs, bulkPhase2]
    rw [if_pos hsz]
  · intro config buffer fuel cursor start nd size hrs hne hsz
    simp only [processState, hrs]
    rw [if_neg hne, if_pos hsz]

/-- Witness for C6: with `max_buffer_size = 3`, feeding four bytes makes
`read` clear the buffer and fail with the size-exceeded error. -/
theorem claim_C6_bounds_enforcement_witness :
    RespParser.read 1 (RespParser.new (RespConfig.new 10 3)) (asciiBytes "+abc") =
      Option.some (Except.error ParserError.sizeExceededError,
        ⟨[], Option.none, RespConfig.new 10 3⟩) :=
  claim_C6_bounds_enforcement.1 1 (RespParser.new (RespConfig.new 10 3))
    (asciiBytes "+abc") (by decide)

/-- C10: a parse error in a `read` call that stays within the buffer limit
returns only the error and resets the parser to a fresh one (empty staging
buffer, no saved state), so values committed earlier in that same call are
discarded and, their bytes having been drained, can never be returned by a
later call.  The concrete run parses `SimpleString "a"` and then hits the
invalid type token `#`: the call returns only the error and the parser is
fresh. -/
theorem claim_C10_committed_values_lost :
    (∀ (fuel : Nat) (p : RespParser) (chunk : List Nat) (e : ParserError) (q : RespParser),
      (p.buffer ++ chunk).length ≤ p.config.max_buffer_size →
      RespParser.read fuel p chunk = Option.some (Except.error e, q) →
      q = RespParser.new p.config) ∧
    RespParser.read 20 RespParser.defaultParser (asciiBytes "+a\r\n#") =
      Option.some (Except.error (ParserError.typeTokenError 35),
        RespParser.new RespConfig.defaultConfig) := by
  constructor
  · intro fuel p chunk e q hlim h
    rw [RespParser.read] at h
    rw [if_neg (by omega)] at h
    cases hst : p.state with
    | none =>
      simp only [hst] at h
      cases hl : readLoop p.config fuel fuel (p.buffer ++ chunk) [] with
      | none =>
        simp only [hl] at h
        simp at h
      | some r =>
        simp only [hl] at h
        match r, hl with
        | (Except.error e2, buf, st), hl =>
          simp only [Option.some.injEq, Prod.mk.injEq] at h
          have hb := readLoop_error_state p.config fuel fuel (p.buffer ++ chunk) [] e2 buf st hl
          rw [← h.2, hb.1, hb.2]
          rfl
        | (Except.ok l, buf, st), hl =>
          simp at h
    | some s =>
      simp only [hst] at h
      cases hp : processState p.config (p.buffer ++ chunk) fuel s with
      | none =>
        simp only [hp] at h
        simp at h
      | some r =>
        simp only [hp] at h
        match r with
        | Except.error e2 =>
          simp only [Option.some.injEq, Prod.mk.injEq] at h
          rw [← h.2]
          rfl
        | Except.ok (StateResult.incomplete s1) =>
          simp at h
        | Except.ok (StateResult.done v endPos) =>
          cases hl : readLoop p.config fuel fuel ((p.buffer ++ chunk).drop endPos) [v] with
          | none =>
            simp only [hl] at h
            simp at h
          | some r2 =>
            simp only [hl] at h
            match r2, hl with
            | (Except.error e2, buf, st), hl =>
              simp only [Option.some.injEq, Prod.mk.injEq] at h
              have hb := readLoop_error_state p.config fuel fuel
                ((p.buffer ++ chunk).drop endPos) [v] e2 buf st hl
              rw [← h.2, hb.1, hb.2]
              rfl
            | (Except.ok l, buf, st), hl =>
              simp at h
  · rfl

/-- Witness for C10: instantiating the universal part on the invalid-integer
error run shows the resulting parser is fresh. -/
theorem claim_C10_committed_values_lost_witness :
    (⟨[], Option.none, RespConfig.defaultConfig⟩ : RespParser) =
      RespParser.new RespConfig.defaultConfig :=
  claim_C10_committed_values_lost.1 20 RespParser.defaultParser (asciiBytes ":hi\r\n")
    ParserError.parseIntError ⟨[], Option.none, RespConfig.defaultConfig⟩
    (by decide) (by rfl)

/-! ### Cursor bounds and the saved-state invariant (C9) -/

/-- The scan cursor stored in a state. -/
def State.cursorOf : State → Nat
  | State.getType cursor => cursor
  | State.simple cursor _ _ => cursor
  | State.bulkString cursor _ _ => cursor
  | State.array cursor _ _ _ _ => cursor

/-- Well-formedness of a state against a buffer length: every stored `start`
is at most the stored `cursor`, every stored `cursor` is at most the buffer
length, and an array substate is itself well formed with a cursor at least the
array cursor. -/
def State.wf (n : Nat) : State → Prop
  | State.getType cursor => cursor ≤ n
  | State.simple cursor start _ => start ≤ cursor ∧ cursor ≤ n
  | State.bulkString cursor start _ => start ≤ cursor ∧ cursor ≤ n
  | State.array cursor start _ _ substateOpt =>
    start ≤ cursor ∧ cursor ≤ n ∧
      match substateOpt with
      | Option.none => True
      | Option.some sub => State.wf n sub ∧ cursor ≤ State.cursorOf sub

theorem State.wf_mono {n m : Nat} (h : n ≤ m) : ∀ s : State, State.wf n s → State.wf m s
  | State.getType cursor => fun hw => Nat.le_trans hw h
  | State.simple _ _ _ => fun hw => ⟨hw.1, Nat.le_trans hw.2 h⟩
  | State.bulkString _ _ _ => fun hw => ⟨hw.1, Nat.le_trans hw.2 h⟩
  | State.array cursor start szo eo Option.none => fun hw =>
      ⟨hw.1, Nat.le_trans hw.2.1 h, trivial⟩
  | State.array cursor start szo eo (Option.some sub) => fun hw =>
      ⟨hw.1, Nat.le_trans hw.2.1 h, State.wf_mono h sub hw.2.2.1, hw.2.2.2⟩

theorem readline_line_bounds {buffer : List Nat} {cursor start : Nat} {line : List Nat}
    {nd : Nat} (h : readline buffer cursor start = Except.ok (ReadlineResult.line line nd)) :
    cursor + 2 ≤ nd ∧ nd ≤ buffer.length := by
  rw [readline] at h
  cases hf : findByteFrom buffer cursor 13 with
  | none =>
    rw [hf] at h
    simp at h
  | some cr =>
    rw [hf] at h
    simp only [] at h
    split at h
    · split at h
      · split at h
        · split at h
          · exact absurd h (by simp)
          · simp only [Except.ok.injEq, ReadlineResult.line.injEq] at h
            rename_i hle _ _ _
            omega
        · exact absurd h (by simp)
      · exact absurd h (by simp)
    · exact absurd h (by simp)

theorem readline_none_bounds {buffer : List Nat} {cursor start nd : Nat}
    (h : readline buffer cursor start = Except.ok (ReadlineResult.none nd))
    (hc : cursor ≤ buffer.length) :
    cursor ≤ nd ∧ nd ≤ buffer.length := by
  rw [readline] at h
  cases hf : findByteFrom buffer cursor 13 with
  | none =>
    rw [hf] at h
    simp only [Except.ok.injEq, ReadlineResult.none.injEq] at h
    omega
  | some cr =>
    have hb := (findByteFrom_eq_some_iff buffer cursor 13 cr).mp hf
    rw [hf] at h
    simp only [] at h
    split at h
    · split at h
      · split at h
        · split at h
          · exact absurd h (by simp)
          · exact absurd h (by simp)
        · exact absurd h (by simp)
      · exact absurd h (by simp)
    · simp only [Except.ok.injEq, ReadlineResult.none.injEq] at h
      omega

theorem readsize_size_bounds {buffer : List Nat} {cursor start nd sz : Nat}
    (h : readsize buffer cursor start = Except.ok (ReadsizeResult.size nd sz)) :
    cursor + 2 ≤ nd ∧ nd ≤ buffer.length := by
  rw [readsize] at h
  split at h
  · exact absurd h (by simp)
  · rename_i line nd2 hrl
    have hb := readline_line_bounds hrl
    split at h
    · exact absurd h (by simp)
    · split at h
      · exact absurd h (by simp)
      · split at h
        · exact absurd h (by simp)
        · simp only [Except.ok.injEq, ReadsizeResult.size.injEq] at h
          omega
  · exact absurd h (by simp)

theorem readsize_null_bounds {buffer : List Nat} {cursor start nd : Nat}
    (h : readsize buffer cursor start = Except.ok (ReadsizeResult.null nd)) :
    cursor + 2 ≤ nd ∧ nd ≤ buffer.length := by
  rw [readsize] at h
  split at h
  · exact absurd h (by simp)
  · rename_i line nd2 hrl
    have hb := readline_line_bounds hrl
    split at h
    · exact absurd h (by simp)
    · split at h
      · exact absurd h (by simp)
      · split at h
        · simp only [Except.ok.injEq, ReadsizeResult.null.injEq] at h
          omega
        · exact absurd h (by simp)
  · exact absurd h (by simp)

theorem readsize_none_bounds {buffer : List Nat} {cursor start nd : Nat}
    (h : readsize buffer cursor start = Except.ok (ReadsizeResult.none nd))
    (hc : cursor ≤ buffer.length) :
    cursor ≤ nd ∧ nd ≤ buffer.length := by
  rw [readsize] at h
  split at h
  · exact absurd h (by simp)
  · split at h
    · exact absurd h (by simp)
    · split at h
      · exact absurd h (by simp)
      · split at h
        · exact absurd h (by simp)
        · exact absurd h (by simp)
  · rename_i nd2 hrl
    have hb := readline_none_bounds hrl hc
    simp only [Except.ok.injEq, ReadsizeResult.none.injEq] at h
    omega

theorem readbuffer_some_bounds {buffer data : List Nat} {cursor size nd : Nat}
    (h : readbuffer buffer cursor size = Option.some (data, nd)) :
    cursor ≤ nd ∧ nd ≤ buffer.length := by
  rw [readbuffer] at h
  split at h
  · simp only [Option.some.injEq, Prod.mk.injEq] at h
    rename_i hle
    omega
  · exact absurd h (by simp)

/-- Conclusion bundle for the preservation lemma: an `Incomplete` result is
well formed with a cursor no smaller than `c`; a `Done` result ends between
`c` and the buffer length. -/
def PSconc (buffer : List Nat) (c : Nat) (r : Except ParserError StateResult) : Prop :=
  (∀ s2, r = Except.ok (StateResult.incomplete s2) →
    State.wf buffer.length s2 ∧ c ≤ State.cursorOf s2) ∧
  (∀ v nd, r = Except.ok (StateResult.done v nd) → c ≤ nd ∧ nd ≤ buffer.length)

theorem PSconc.mono {buffer : List Nat} {c c2 : Nat} {r : Except ParserError StateResult}
    (h : PSconc buffer c2 r) (hc : c ≤ c2) : PSconc buffer c r := by
  refine ⟨?_, ?_⟩
  · intro s2 hr
    have h2 := h.1 s2 hr
    exact ⟨h2.1, Nat.le_trans hc h2.2⟩
  · intro v nd hr
    have h2 := h.2 v nd hr
    exact ⟨Nat.le_trans hc h2.1, h2.2⟩

theorem PSconc.error {buffer : List Nat} {c : Nat} {e : ParserError} :
    PSconc buffer c (Except.error e) := by
  refine ⟨?_, ?_⟩
  · intro s2 hr
    exact absurd hr (by simp)
  · intro v nd hr
    exact absurd hr (by simp)

theorem PSconc.incomplete {buffer : List Nat} {c : Nat} {s2 : State}
    (hwf : State.wf buffer.length s2) (hc : c ≤ State.cursorOf s2) :
    PSconc buffer c (Except.ok (StateResult.incomplete s2)) := by
  refine ⟨?_, ?_⟩
  · intro s3 hr
    simp only [Except.ok.injEq, StateResult.incomplete.injEq] at hr
    rw [← hr]
    exact ⟨hwf, hc⟩
  · intro v nd hr
    exact absurd hr (by simp)

theorem PSconc.done {buffer : List Nat} {c : Nat} {v : RespType} {nd : Nat}
    (h1 : c ≤ nd) (h2 : nd ≤ buffer.length) :
    PSconc buffer c (Except.ok (StateResult.done v nd)) := by
  refine ⟨?_, ?_⟩
  · intro s3 hr
    exact absurd hr (by simp)
  · intro v2 nd2 hr
    simp only [Except.ok.injEq, StateResult.done.injEq] at hr
    omega

/-- Preservation of the cursor invariant by one `process_state` step. -/
theorem processState_wf (config : RespConfig) (buffer : List Nat) :
    ∀ (fuel : Nat) (s : State) (r : Except ParserError StateResult),
      State.wf buffer.length s →
      processState config buffer fuel s = Option.some r →
      PSconc buffer (State.cursorOf s) r := by
  intro fuel
  induction fuel with
  | zero =>
    intro s r hwf h
    simp [processState] at h
  | succ n ih =>
    intro s r hwf h
    match s with
    | State.getType cursor =>
      simp only [State.cursorOf]
      simp only [processState] at h
      split at h
      · simp only [Option.some.injEq] at h
        rw [← h]
        exact PSconc.incomplete hwf (Nat.le_refl _)
      · rename_i hcl
        have hstep : ∀ s2 : State, State.cursorOf s2 = cursor + 1 →
            (cursor + 1 ≤ buffer.length → State.wf buffer.length s2) →
            (if cursor + 1 < buffer.length then processState config buffer n s2
              else Option.some (Except.ok (StateResult.incomplete s2))) = Option.some r →
            PSconc buffer cursor r := by
          intro s2 hc2 hwf2 hh
          split at hh
          · rename_i hlt
            have hps := ih s2 r (hwf2 (by omega)) hh
            rw [hc2] at hps
            exact hps.mono (by omega)
          · simp only [Option.some.injEq] at hh
            rw [← hh]
            exact PSconc.incomplete (hwf2 (by omega)) (by omega)
        split at h
        · simp only [Option.some.injEq] at h
          rw [← h]
          exact PSconc.error
        · rename_i s2 heq
          split at heq
          · injection heq with heq2
            subst heq2
            exact hstep (State.simple (cursor + 1) (cursor + 1) SimpleType.string) rfl
              (fun hb => ⟨Nat.le_refl _, hb⟩) h
          · split at heq
            · injection heq with heq2
              subst heq2
              exact hstep (State.simple (cursor + 1) (cursor + 1) SimpleType.err) rfl
                (fun hb => ⟨Nat.le_refl _, hb⟩) h
            · split at heq
              · injection heq with heq2
                subst heq2
                exact hstep (State.simple (cursor + 1) (cursor + 1) SimpleType.integer) rfl
                  (fun hb => ⟨Nat.le_refl _, hb⟩) h
              · split at heq
                · injection heq with heq2
                  subst heq2
                  exact hstep (State.bulkString (cursor + 1) (cursor + 1) Option.none) rfl
                    (fun hb => ⟨Nat.le_refl _, hb⟩) h
                · split at heq
                  · injection heq with heq2
                    subst heq2
                    exact hstep (State.array (cursor + 1) (cursor + 1) Option.none
                        Option.none Option.none) rfl
                      (fun hb => ⟨Nat.le_refl _, hb, trivial⟩) h
                  · exact absurd heq (by simp)
    | State.simple cursor start ty =>
      obtain ⟨hws, hwc⟩ := hwf
      simp only [State.cursorOf]
      simp only [processState] at h
      cases hrl : readline buffer cursor start with
      | error e =>
        rw [hrl] at h
        simp only [Option.some.injEq] at h
        rw [← h]
        exact PSconc.error
      | ok rr =>
        rw [hrl] at h
        match rr with
        | ReadlineResult.line line nd =>
          have hb := readline_line_bounds hrl
          simp only [] at h
          split at h
          · simp only [Option.some.injEq] at h
            rw [← h]
            exact PSconc.error
          · match ty with
            | SimpleType.string =>
              simp only [Option.some.injEq] at h
              rw [← h]
              exact PSconc.done (by omega) (by omega)
            | SimpleType.err =>
              simp only [Option.some.injEq] at h
              rw [← h]
              exact PSconc.done (by omega) (by omega)
            | SimpleType.integer =>
              cases hp : parseI64 line with
              | ok v =>
                rw [hp] at h
                simp only [Option.some.injEq] at h
                rw [← h]
                exact PSconc.done (by omega) (by omega)
              | error e =>
                rw [hp] at h
                simp only [Option.some.injEq] at h
                rw [← h]
                exact PSconc.error
        | ReadlineResult.none nd =>
          have hb := readline_none_bounds hrl hwc
          simp only [Option.some.injEq] at h
          rw [← h]
          exact PSconc.incomplete ⟨by omega, by omega⟩
            (by simp only [State.cursorOf]; omega)
    | State.bulkString cursor start sizeOpt =>
      obtain ⟨hws, hwc⟩ := hwf
      simp only [State.cursorOf]
      have hphase2 : ∀ (c2 size : Nat), cursor ≤ c2 → start ≤ c2 → c2 ≤ buffer.length →
          bulkPhase2 config buffer c2 start size = Option.some r →
          PSconc buffer cursor r := by
        intro c2 size hc1 hs1 hc2 hh
        rw [bulkPhase2] at hh
        split at hh
        · simp only [Option.some.injEq] at hh
          rw [← hh]
          exact PSconc.error
        · cases hrb : readbuffer buffer c2 size with
          | some pr =>
            match pr, hrb with
            | (data, e2), hrb =>
              have hbd := readbuffer_some_bounds hrb
              simp only [hrb, Option.some.injEq] at hh
              rw [← hh]
              exact PSconc.done (by omega) (by omega)
          | none =>
            simp only [hrb, Option.some.injEq] at hh
            rw [← hh]
            exact PSconc.incomplete ⟨by omega, by omega⟩
              (by simp only [State.cursorOf]; omega)
      cases sizeOpt with
      | some size =>
        simp only [processState] at h
        exact hphase2 cursor size (Nat.le_refl _) hws hwc h
      | none =>
        simp only [processState] at h
        cases hrs : readsize buffer cursor start with
        | error e =>
          rw [hrs] at h
          simp only [Option.some.injEq] at h
          rw [← h]
          exact PSconc.error
        | ok rr =>
          rw [hrs] at h
          match rr with
          | ReadsizeResult.none nd =>
            have hbd := readsize_none_bounds hrs hwc
            simp only [Option.some.injEq] at h
            rw [← h]
            exact PSconc.incomplete ⟨by omega, by omega⟩
              (by simp only [State.cursorOf]; omega)
          | ReadsizeResult.null nd =>
            have hbd := readsize_null_bounds hrs
            simp only [Option.some.injEq] at h
            rw [← h]
            exact PSconc.done (by omega) (by omega)
          | ReadsizeResult.size nd sz =>
            have hbd := readsize_size_bounds hrs
            simp only [] at h
            exact hphase2 nd sz (by omega) (by omega) (by omega) h
    | State.array cursor start sizeOpt elementsOpt substateOpt =>
      have hws : start ≤ cursor := by
        cases substateOpt
        · exact hwf.1
        · exact hwf.1
      have hwc : cursor ≤ buffer.length := by
        cases substateOpt
        · exact hwf.2.1
        · exact hwf.2.1
      simp only [State.cursorOf]
      cases sizeOpt with
      | none =>
        simp only [processState] at h
        cases hrs : readsize buffer cursor start with
        | error e =>
          rw [hrs] at h
          simp only [Option.some.injEq] at h
          rw [← h]
          exact PSconc.error
        | ok rr =>
          rw [hrs] at h
          match rr with
          | ReadsizeResult.none nd =>
            have hbd := readsize_none_bounds hrs hwc
            simp only [Option.some.injEq] at h
            rw [← h]
            exact PSconc.incomplete ⟨by omega, by omega, trivial⟩
              (by simp only [State.cursorOf]; omega)
          | ReadsizeResult.null nd =>
            have hbd := readsize_null_bounds hrs
            simp only [Option.some.injEq] at h
            rw [← h]
            exact PSconc.done (by omega) (by omega)
          | ReadsizeResult.size nd sz =>
            have hbd := readsize_size_bounds hrs
            simp only [] at h
            split at h
            · simp only [Option.some.injEq] at h
              rw [← h]
              exact PSconc.done (by omega) (by omega)
            · have hwf2 : State.wf buffer.length
                  (State.array nd start (Option.some sz) (Option.some []) Option.none) :=
                ⟨by omega, by omega, trivial⟩
              have hps := ih _ r hwf2 h
              exact hps.mono (by simp only [State.cursorOf]; omega)
      | some sz =>
        simp only [processState] at h
        split at h
        · simp only [Option.some.injEq] at h
          rw [← h]
          exact PSconc.error
        · split at h
          · rename_i hltsz
            have hchild : State.wf buffer.length
                  (substateOpt.getD (State.getType cursor)) ∧
                cursor ≤ State.cursorOf (substateOpt.getD (State.getType cursor)) := by
              cases substateOpt with
              | none =>
                refine ⟨hwc, ?_⟩
                simp only [Option.getD, State.cursorOf]
                exact Nat.le_refl _
              | some sub => exact ⟨hwf.2.2.1, hwf.2.2.2⟩
            cases hc : processState config buffer n (substateOpt.getD (State.getType cursor)) with
            | none =>
              rw [hc] at h
              simp at h
            | some rc =>
              rw [hc] at h
              match rc with
              | Except.error e =>
                simp only [Option.some.injEq] at h
                rw [← h]
                exact PSconc.error
              | Except.ok (StateResult.done v nd) =>
                have hcd := (ih _ _ hchild.1 hc).2 v nd rfl
                have hwf2 : State.wf buffer.length
                    (State.array nd start (Option.some sz)
                      (Option.some (elementsOpt.getD [] ++ [v])) Option.none) :=
                  ⟨by omega, by omega, trivial⟩
                have hps := ih _ r hwf2 h
                exact hps.mono (by simp only [State.cursorOf]; omega)
              | Except.ok (StateResult.incomplete sub2) =>
                have hci := (ih _ _ hchild.1 hc).1 sub2 rfl
                simp only [Option.some.injEq] at h
                rw [← h]
                exact PSconc.incomplete
                  ⟨hws, hwc, hci.1, by omega⟩ (by simp only [State.cursorOf]; omega)
          · simp only [Option.some.injEq] at h
            rw [← h]
            exact PSconc.done (Nat.le_refl _) hwc

/-- States saved by the `get_next` loop respect the cursor invariant for the
buffer they are saved against. -/
theorem readLoop_wf (config : RespConfig) (pfuel : Nat) :
    ∀ (lfuel : Nat) (buffer : List Nat) (items : List RespType)
      (r : Except ParserError (List RespType)) (buf : List Nat) (st : Option State),
      readLoop config pfuel lfuel buffer items = Option.some (r, buf, st) →
      ∀ s, st = Option.some s → State.wf buf.length s := by
  intro lfuel
  induction lfuel with
  | zero =>
    intro buffer items r buf st h
    simp [readLoop] at h
  | succ n ih =>
    intro buffer items r buf st h
    rw [readLoop] at h
    cases hp : processState config buffer pfuel (State.getType 0) with
    | none =>
      rw [hp] at h
      simp at h
    | some rc =>
      rw [hp] at h
      match rc with
      | Except.error e =>
        simp only [Option.some.injEq, Prod.mk.injEq] at h
        intro s hs
        rw [← h.2.2] at hs
        exact absurd hs (by simp)
      | Except.ok (StateResult.incomplete s1) =>
        simp only [Option.some.injEq, Prod.mk.injEq] at h
        intro s hs
        rw [← h.2.2] at hs
        simp only [Option.some.injEq] at hs
        have hwf := (processState_wf config buffer pfuel (State.getType 0)
          _ (Nat.zero_le _) hp).1 s1 rfl
        rw [← hs, ← h.2.1]
        exact hwf.1
      | Except.ok (StateResult.done v endPos) =>
        exact ih (buffer.drop endPos) (items ++ [v]) r buf st h

/-- The saved-state invariant of a parser: any saved state is well formed
against the current staging buffer. -/
def RespParser.wfP (p : RespParser) : Prop :=
  ∀ s, p.state = Option.some s → State.wf p.buffer.length s

/-- Counterexample to C9 as stated: after `read` fails on the buffer limit the
saved state survives while the buffer is cleared, so a later state can hold a
cursor beyond the staging-buffer length.  Feeding `"+ab"` saves the simple
state with cursor 3; feeding two more bytes trips the 4-byte buffer limit,
clearing the buffer but keeping the state, whose cursor 3 now exceeds the
buffer length 0 (the corresponding Rust `read` call would panic on
`buffer[3..]` at the next resume). -/
theorem claim_C9_counterexample :
    RespParser.read 20 (RespParser.new (RespConfig.new 100 4)) (asciiBytes "+ab") =
      Option.some (Except.ok ([] : List RespType),
        ⟨asciiBytes "+ab", Option.some (State.simple 3 1 SimpleType.string),
          RespConfig.new 100 4⟩) ∧
    RespParser.read 20
        ⟨asciiBytes "+ab", Option.some (State.simple 3 1 SimpleType.string),
          RespConfig.new 100 4⟩ (asciiBytes "xy") =
      Option.some (Except.error ParserError.sizeExceededError,
        ⟨[], Option.some (State.simple 3 1 SimpleType.string), RespConfig.new 100 4⟩) ∧
    ¬ RespParser.wfP ⟨[], Option.some (State.simple 3 1 SimpleType.string),
        RespConfig.new 100 4⟩ := by
  refine ⟨rfl, rfl, ?_⟩
  intro hw
  have hx := hw (State.simple 3 1 SimpleType.string) rfl
  exact absurd hx.2 (by decide)

/-- C9 (amended): a fresh parser satisfies the saved-state cursor invariant,
and every `read` call that stays within `max_buffer_size` preserves it: each
cursor and start stored in the saved state is at most the staging-buffer
length (with starts at most cursors), so the slice accesses of `readline`,
`readbuffer`, `get_type` and the other handlers stay in bounds. -/
theorem claim_C9_cursor_invariant_amended :
    (∀ config : RespConfig, RespParser.wfP (RespParser.new config)) ∧
    (∀ (fuel : Nat) (p : RespParser) (chunk : List Nat)
        (r : Except ParserError (List RespType)) (q : RespParser),
      RespParser.wfP p →
      (p.buffer ++ chunk).length ≤ p.config.max_buffer_size →
      RespParser.read fuel p chunk = Option.some (r, q) →
      RespParser.wfP q) := by
  constructor
  · intro config s hs
    exact absurd hs (by simp [RespParser.new])
  · intro fuel p chunk r q hwf hlim h
    rw [RespParser.read] at h
    rw [if_neg (by omega)] at h
    cases hst : p.state with
    | none =>
      simp only [hst] at h
      cases hl : readLoop p.config fuel fuel (p.buffer ++ chunk) [] with
      | none =>
        simp only [hl] at h
        simp at h
      | some rr =>
        simp only [hl] at h
        match rr, hl with
        | (r2, buf, st), hl =>
          simp only [Option.some.injEq, Prod.mk.injEq] at h
          intro s hs
          rw [← h.2] at hs
          simp only at hs
          have := readLoop_wf p.config fuel fuel (p.buffer ++ chunk) [] r2 buf st hl s hs
          rw [← h.2]
          exact this
    | some s0 =>
      simp only [hst] at h
      have hwf0 : State.wf (p.buffer ++ chunk).length s0 := by
        apply State.wf_mono _ s0 (hwf s0 hst)
        rw [List.length_append]
        omega
      cases hp : processState p.config (p.buffer ++ chunk) fuel s0 with
      | none =>
        simp only [hp] at h
        simp at h
      | some rc =>
        simp only [hp] at h
        match rc with
        | Except.error e =>
          simp only [Option.some.injEq, Prod.mk.injEq] at h
          intro s hs
          rw [← h.2] at hs
          exact absurd hs (by simp)
        | Except.ok (StateResult.incomplete s1) =>
          simp only [Option.some.injEq, Prod.mk.injEq] at h
          intro s hs
          rw [← h.2] at hs
          simp only [Option.some.injEq] at hs
          have hx := (processState_wf p.config (p.buffer ++ chunk) fuel s0 _ hwf0 hp).1 s1 rfl
          rw [← h.2, ← hs]
          exact hx.1
        | Except.ok (StateResult.done v endPos) =>
          cases hl : readLoop p.config fuel fuel ((p.buffer ++ chunk).drop endPos) [v] with
          | none =>
            simp only [hl] at h
            simp at h
          | some rr =>
            simp only [hl] at h
            match rr, hl with
            | (r2, buf, st), hl =>
              simp only [Option.some.injEq, Prod.mk.injEq] at h
              intro s hs
              rw [← h.2] at hs
              simp only at hs
              have := readLoop_wf p.config fuel fuel ((p.buffer ++ chunk).drop endPos)
                [v] r2 buf st hl s hs
              rw [← h.2]
              exact this

/-- Witness for C9 (amended): the parser reached by feeding `"+ab"` to a fresh
default parser satisfies the invariant. -/
theorem claim_C9_cursor_invariant_amended_witness :
    RespParser.wfP ⟨asciiBytes "+ab", Option.some (State.simple 3 1 SimpleType.string),
      RespConfig.defaultConfig⟩ :=
  claim_C9_cursor_invariant_amended.2 20 RespParser.defaultParser (asciiBytes "+ab")
    (Except.ok [])
    ⟨asciiBytes "+ab", Option.some (State.simple 3 1 SimpleType.string),
      RespConfig.defaultConfig⟩
    (claim_C9_cursor_invariant_amended.1 RespConfig.defaultConfig)
    (by decide) (by rfl)

/-! ### Decimal rendering lemmas (C2) -/

theorem natDecimalAux_zero (fuel : Nat) : natDecimalAux fuel 0 = [] := by
  cases fuel with
  | zero => rfl
  | succ f => rfl

theorem digitsToNat_append_one (l : List Nat) (d : Nat) :
    digitsToNat (l ++ [d]) = digitsToNat l * 10 + (d - 48) := by
  unfold digitsToNat
  rw [List.foldl_append]
  rfl

theorem natDecimalAux_spec :
    ∀ (fuel n : Nat), 1 ≤ n → n ≤ fuel →
      (∀ b ∈ natDecimalAux fuel n, 48 ≤ b ∧ b ≤ 57) ∧ natDecimalAux fuel n ≠ [] ∧
        digitsToNat (natDecimalAux fuel n) = n := by
  intro fuel
  induction fuel with
  | zero =>
    intro n h1 h2
    omega
  | succ f ih =>
    intro n h1 h2
    match n, h1 with
    | m + 1, _ =>
      have hunf : natDecimalAux (f + 1) (m + 1) =
          natDecimalAux f ((m + 1) / 10) ++ [(m + 1) % 10 + 48] := rfl
      rw [hunf]
      by_cases hq : (m + 1) / 10 = 0
      · rw [hq, natDecimalAux_zero, List.nil_append]
        refine ⟨?_, by simp, ?_⟩
        · intro b hb
          simp only [List.mem_singleton] at hb
          have := Nat.mod_lt (m + 1) (show 0 < 10 by omega)
          omega
        · have hm : (m + 1) % 10 = m + 1 := by
            have := Nat.div_add_mod (m + 1) 10
            omega
          unfold digitsToNat
          simp [hm]
      · have hq1 : 1 ≤ (m + 1) / 10 := by omega
        have hq2 : (m + 1) / 10 ≤ f := by
          have := Nat.div_lt_self (show 0 < m + 1 by omega) (show 1 < 10 by omega)
          omega
        obtain ⟨hd, hne, hval⟩ := ih ((m + 1) / 10) hq1 hq2
        refine ⟨?_, by simp, ?_⟩
        · intro b hb
          rw [List.mem_append] at hb
          rcases hb with hb | hb
          · exact hd b hb
          · simp only [List.mem_singleton] at hb
            have := Nat.mod_lt (m + 1) (show 0 < 10 by omega)
            omega
        · rw [digitsToNat_append_one, hval]
          have := Nat.div_add_mod (m + 1) 10
          omega

theorem natDecimal_spec (n : Nat) :
    (∀ b ∈ natDecimal n, 48 ≤ b ∧ b ≤ 57) ∧ natDecimal n ≠ [] ∧
      digitsToNat (natDecimal n) = n := by
  unfold natDecimal
  by_cases h : n = 0
  · rw [if_pos h]
    refine ⟨?_, by simp, ?_⟩
    · intro b hb
      simp only [List.mem_singleton] at hb
      omega
    · rw [h]
      rfl
  · rw [if_neg h]
    exact natDecimalAux_spec n n (by omega) (Nat.le_refl n)

theorem parseI64_natDecimal (n : Nat) (h : (n : Int) ≤ i64Max) :
    parseI64 (natDecimal n) = Except.ok (n : Int) := by
  obtain ⟨hd, hne, hval⟩ := natDecimal_spec n
  cases hnd : natDecimal n with
  | nil => exact absurd hnd hne
  | cons b rest =>
    have hb : 48 ≤ b ∧ b ≤ 57 := by
      apply hd
      rw [hnd]
      simp
    rw [parseI64_cons, if_neg (by omega), if_neg (by omega)]
    have hall : ∀ x ∈ b :: rest, 48 ≤ x ∧ x ≤ 57 := by
      intro x hx
      apply hd
      rw [hnd]
      exact hx
    have hvv : digitsToNat (b :: rest) = n := by
      rw [← hnd]
      exact hval
    have := (parseI64Digits_ok_iff 1 (b :: rest) (n : Int)).mpr
      ⟨by simp, hall, ?_, ?_, ?_⟩
    · exact this
    · rw [hvv]
      unfold i64Min
      omega
    · rw [hvv]
      omega
    · rw [hvv]
      omega

theorem parseI64_intDecimal (i : Int) (h1 : i64Min ≤ i) (h2 : i ≤ i64Max) :
    parseI64 (intDecimal i) = Except.ok i := by
  unfold intDecimal
  by_cases hneg : i < 0
  · rw [if_pos hneg]
    obtain ⟨hd, hne, hval⟩ := natDecimal_spec (-i).toNat
    rw [parseI64_cons, if_neg (by omega), if_pos rfl]
    have hall : ∀ x ∈ natDecimal (-i).toNat, 48 ≤ x ∧ x ≤ 57 := hd
    have hv2 : ((digitsToNat (natDecimal (-i).toNat) : Nat) : Int) = -i := by
      rw [hval]
      omega
    have := (parseI64Digits_ok_iff (-1) (natDecimal (-i).toNat) i).mpr
      ⟨hne, hall, ?_, ?_, ?_⟩
    · exact this
    · rw [hv2]
      omega
    · rw [hv2]
      unfold i64Max
      unfold i64Min at h1
      omega
    · rw [hv2]
      omega
  · rw [if_neg hneg]
    have : ((i.toNat : Nat) : Int) = i := by omega
    rw [← this]
    apply parseI64_natDecimal
    omega

/-! ### Frame-level computation lemmas (C2) -/

theorem utf8Step_ascii (b : Nat) (rest : List Nat) (hb : b ≤ 127) :
    utf8Step b rest = Option.some rest := by
  unfold utf8Step
  rw [if_pos hb]

theorem utf8ValidF_of_ascii :
    ∀ (fuel : Nat) (s : List Nat), (∀ b ∈ s, b ≤ 127) → s.length ≤ fuel →
      utf8ValidF fuel s = true := by
  intro fuel
  induction fuel with
  | zero =>
    intro s h hl
    match s, hl with
    | [], _ => rfl
  | succ f ih =>
    intro s h hl
    match s with
    | [] => rfl
    | b :: rest =>
      have hstep := utf8Step_ascii b rest (h b (List.mem_cons_self b rest))
      show (match utf8Step b rest with
        | Option.some r => utf8ValidF f r
        | Option.none => false) = true
      rw [hstep]
      exact ih rest (fun x hx => h x (List.mem_cons_of_mem b hx))
        (by simp at hl; omega)

theorem utf8Valid_of_ascii (s : List Nat) (h : ∀ b ∈ s, b ≤ 127) :
    utf8Valid s = true :=
  utf8ValidF_of_ascii s.length s h (Nat.le_refl _)

theorem getD_shift (pre tail : List Nat) (k : Nat) :
    (pre ++ tail).getD (pre.length + k) 0 = tail.getD k 0 := by
  rw [List.getD_append_right pre tail 0 (pre.length + k) (by omega)]
  congr 1
  omega

theorem readline_of_clean (pre s rest : List Nat)
    (hs13 : ¬ 13 ∈ s) (hutf : utf8Valid s = true) (hs10 : ¬ 10 ∈ s) :
    readline (pre ++ s ++ 13 :: 10 :: rest) pre.length pre.length =
      Except.ok (ReadlineResult.line s (pre.length + s.length + 2)) := by
  have hlen : (pre ++ s ++ 13 :: 10 :: rest).length =
      pre.length + s.length + 2 + rest.length := by
    simp [List.length_append]
    omega
  have hgd : ∀ k, (pre ++ s ++ 13 :: 10 :: rest).getD (pre.length + k) 0 =
      (s ++ 13 :: 10 :: rest).getD k 0 := by
    intro k
    rw [List.append_assoc]
    exact getD_shift pre (s ++ 13 :: 10 :: rest) k
  have hf : findByteFrom (pre ++ s ++ 13 :: 10 :: rest) pre.length 13 =
      Option.some s.length := by
    apply (findByteFrom_eq_some_iff _ _ _ _).mpr
    refine ⟨by omega, ?_, ?_⟩
    · rw [hgd s.length, List.getD_append_right s _ 0 s.length (Nat.le_refl _),
        Nat.sub_self]
      rfl
    · intro j hj1 hj2
      have hk : j = pre.length + (j - pre.length) := by omega
      rw [hk, hgd (j - pre.length),
        List.getD_append s _ 0 (j - pre.length) (by omega)]
      have hmem : s.getD (j - pre.length) 0 ∈ s := by
        rw [List.getD_eq_getElem s 0 (by omega : j - pre.length < s.length)]
        exact List.getElem_mem _
      intro hc
      rw [hc] at hmem
      exact hs13 hmem
  rw [readline, hf]
  simp only []
  rw [if_pos (by omega)]
  have h10 : (pre ++ s ++ 13 :: 10 :: rest).getD (pre.length + s.length + 2 - 1) 0 = 10 := by
    have hk : pre.length + s.length + 2 - 1 = pre.length + (s.length + 1) := by omega
    rw [hk, hgd (s.length + 1),
      List.getD_append_right s _ 0 (s.length + 1) (by omega)]
    have hk2 : s.length + 1 - s.length = 1 := by omega
    rw [hk2]
    rfl
  rw [if_pos h10]
  have hline : ((pre ++ s ++ 13 :: 10 :: rest).take (pre.length + s.length)).drop
      pre.length = s := by
    rw [List.append_assoc, ← List.length_append pre s, ← List.append_assoc,
      List.take_left, List.drop_left]
  rw [hline, if_pos hutf]
  rw [if_neg (by simpa [List.contains, List.elem_iff] using hs10)]

theorem readsize_of_nat (pre rest : List Nat) (n : Nat) (hn : (n : Int) ≤ i64Max) :
    readsize (pre ++ natDecimal n ++ 13 :: 10 :: rest) pre.length pre.length =
      Except.ok (ReadsizeResult.size (pre.length + (natDecimal n).length + 2) n) := by
  obtain ⟨hd, hne, hval⟩ := natDecimal_spec n
  have hrl := readline_of_clean pre (natDecimal n) rest
    (fun hc => by have := hd 13 hc; omega)
    (utf8Valid_of_ascii _ (fun b hb => by have := hd b hb; omega))
    (fun hc => by have := hd 10 hc; omega)
  simp only [readsize, hrl, parseI64_natDecimal n hn]
  rw [if_neg (by omega), if_neg (by omega)]
  have : ((n : Int)).toNat = n := by omega
  rw [this]

theorem readbuffer_at (pre b : List Nat) (x y : Nat) (rest : List Nat) :
    readbuffer (pre ++ b ++ x :: y :: rest) pre.length b.length =
      Option.some (b, pre.length + b.length + 2) := by
  have hlen : (pre ++ b ++ x :: y :: rest).length =
      pre.length + b.length + 2 + rest.length := by
    simp [List.length_append]
    omega
  simp only [readbuffer]
  rw [if_pos (by omega)]
  have hdata : ((pre ++ b ++ x :: y :: rest).drop pre.length).take b.length = b := by
    rw [List.append_assoc, List.drop_left, List.take_left]
  rw [hdata]

/-! ### Constructibility, size bookkeeping and the parse-back lemma (C2) -/

mutual

/-- Values producible through the guarded constructors of src/resp.rs: simple
strings and errors carry no CR or LF (and, being Rust `String`s, are valid
UTF-8); integers are 64-bit signed (the `i64` argument type); bulk strings,
arrays and the null values are unrestricted. -/
def RespType.constructible : RespType → Prop
  | RespType.simpleString s => ¬ 13 ∈ s ∧ ¬ 10 ∈ s ∧ utf8Valid s = true
  | RespType.error s => ¬ 13 ∈ s ∧ ¬ 10 ∈ s ∧ utf8Valid s = true
  | RespType.integer i => i64Min ≤ i ∧ i ≤ i64Max
  | RespType.bulkString _ => True
  | RespType.array a => RespType.constructibleList a
  | RespType.null => True
  | RespType.nullArray => True

def RespType.constructibleList : List RespType → Prop
  | [] => True
  | v :: vs => RespType.constructible v ∧ RespType.constructibleList vs

end

mutual

/-- All component sizes checked against `max_resp_size` during parsing. -/
def sizesOK (m : Nat) : RespType → Prop
  | RespType.simpleString s => s.length ≤ m
  | RespType.error s => s.length ≤ m
  | RespType.integer i => (intDecimal i).length ≤ m
  | RespType.bulkString b => b.length ≤ m
  | RespType.array a => a.length ≤ m ∧ sizesOKList m a
  | RespType.null => True
  | RespType.nullArray => True

def sizesOKList (m : Nat) : List RespType → Prop
  | [] => True
  | v :: vs => sizesOK m v ∧ sizesOKList m vs

end

mutual

/-- Structural size measure used for strong induction over nested values. -/
def RespType.sizeM : RespType → Nat
  | RespType.array a => 1 + RespType.listSizeM a
  | _ => 1

def RespType.listSizeM : List RespType → Nat
  | [] => 0
  | v :: vs => RespType.sizeM v + RespType.listSizeM vs

end

mutual

/-- Sufficient state-machine fuel to parse one encoded value. -/
def fuelNeed : RespType → Nat
  | RespType.array a => 3 + a.length + fuelNeedList a
  | _ => 2

def fuelNeedList : List RespType → Nat
  | [] => 0
  | v :: vs => fuelNeed v + fuelNeedList vs

end

theorem sizeM_pos : ∀ v : RespType, 1 ≤ RespType.sizeM v := by
  intro v
  cases v <;> simp only [RespType.sizeM] <;> omega

theorem sizeM_mem_le : ∀ (a : List RespType) (v : RespType), v ∈ a →
    RespType.sizeM v ≤ RespType.listSizeM a := by
  intro a
  induction a with
  | nil =>
    intro v hv
    exact absurd hv (by simp)
  | cons w ws ih =>
    intro v hv
    rw [List.mem_cons] at hv
    rcases hv with rfl | hv
    · simp only [RespType.listSizeM]
      omega
    · have := ih v hv
      simp only [RespType.listSizeM]
      omega

theorem fuelNeed_pos : ∀ v : RespType, 2 ≤ fuelNeed v := by
  intro v
  cases v <;> simp only [fuelNeed] <;> omega

theorem as_bytes_length_pos : ∀ v : RespType, 3 ≤ v.as_bytes.length := by
  intro v
  cases v <;>
    simp only [RespType.as_bytes, List.length_cons, List.length_append,
      List.length_nil] <;>
    omega

theorem listBytes_length_ge : ∀ a : List RespType, a.length ≤ (RespType.listBytes a).length := by
  intro a
  induction a with
  | nil => simp [RespType.listBytes]
  | cons v vs ih =>
    have h3 := as_bytes_length_pos v
    simp only [RespType.listBytes, List.length_append, List.length_cons]
    omega

theorem listBytes_mem_le : ∀ (a : List RespType) (v : RespType), v ∈ a →
    v.as_bytes.length ≤ (RespType.listBytes a).length := by
  intro a
  induction a with
  | nil =>
    intro v hv
    exact absurd hv (by simp)
  | cons w ws ih =>
    intro v hv
    rw [List.mem_cons] at hv
    rcases hv with rfl | hv
    · simp only [RespType.listBytes, List.length_append]
      omega
    · have := ih v hv
      simp only [RespType.listBytes, List.length_append]
      omega

theorem sizesOK_of_length :
    ∀ (N : Nat) (v : RespType) (m : Nat), RespType.sizeM v ≤ N →
      v.as_bytes.length ≤ m → sizesOK m v := by
  intro N
  induction N with
  | zero =>
    intro v m hsz
    have := sizeM_pos v
    omega
  | succ n ih =>
    intro v m hsz hlen
    cases v with
    | simpleString s =>
      show s.length ≤ m
      simp [RespType.as_bytes, List.length_append] at hlen
      omega
    | error s =>
      show s.length ≤ m
      simp [RespType.as_bytes, List.length_append] at hlen
      omega
    | integer i =>
      show (intDecimal i).length ≤ m
      simp [RespType.as_bytes, List.length_append] at hlen
      omega
    | bulkString b =>
      show b.length ≤ m
      simp [RespType.as_bytes, List.length_append] at hlen
      omega
    | null => trivial
    | nullArray => trivial
    | array a =>
      have hlsz : RespType.listSizeM a ≤ n := by
        have : RespType.sizeM (RespType.array a) = 1 + RespType.listSizeM a := rfl
        omega
      have hlb : (RespType.listBytes a).length ≤ m := by
        simp [RespType.as_bytes, List.length_append] at hlen
        omega
      refine ⟨?_, ?_⟩
      · have := listBytes_length_ge a
        omega
      · clear hlen hsz
        induction a with
        | nil => trivial
        | cons w ws ihl =>
          have hwsz : RespType.sizeM w ≤ n := by
            have h1 := sizeM_mem_le (w :: ws) w (by simp)
            omega
          have hwlen : w.as_bytes.length ≤ m := by
            have := listBytes_mem_le (w :: ws) w (by simp)
            omega
          refine ⟨ih w m hwsz hwlen, ?_⟩
          apply ihl
          · have : RespType.listSizeM (w :: ws) =
                RespType.sizeM w + RespType.listSizeM ws := rfl
            have := sizeM_pos w
            omega
          · have hsub : (RespType.listBytes ws).length ≤ (RespType.listBytes (w :: ws)).length := by
              simp [RespType.listBytes, List.length_append]
            omega

/-- One encoded frame anywhere in a buffer parses back to its value. -/
def FrameOK (config : RespConfig) (v : RespType) : Prop :=
  ∀ (pre rest : List Nat) (fuel : Nat), fuelNeed v ≤ fuel →
    processState config (pre ++ v.as_bytes ++ rest) fuel (State.getType pre.length) =
      Option.some (Except.ok (StateResult.done v (pre.length + v.as_bytes.length)))

theorem parse_elems (config : RespConfig) :
    ∀ (rs : List RespType), (∀ v ∈ rs, FrameOK config v) →
    ∀ (elems : List RespType) (k : Nat) (pre rest : List Nat) (start fuel : Nat),
      k = elems.length + rs.length →
      k ≤ config.max_resp_size →
      1 + rs.length + fuelNeedList rs ≤ fuel →
      processState config (pre ++ RespType.listBytes rs ++ rest) fuel
        (State.array pre.length start (Option.some k) (Option.some elems) Option.none) =
      Option.some (Except.ok (StateResult.done (RespType.array (elems ++ rs))
        (pre.length + (RespType.listBytes rs).length))) := by
  intro rs
  induction rs with
  | nil =>
    intro _ elems k pre rest start fuel hk hkm hfuel
    obtain ⟨g, rfl⟩ : ∃ g, fuel = g + 1 := ⟨fuel - 1, by omega⟩
    simp only [processState]
    rw [if_neg (by omega)]
    simp only [Option.getD]
    rw [if_neg (by simp at hk; omega)]
    simp only [RespType.listBytes, List.length_nil, List.append_nil, Nat.add_zero]
  | cons r rs2 ih =>
    intro hfr elems k pre rest start fuel hk hkm hfuel
    obtain ⟨g, rfl⟩ : ∃ g, fuel = g + 1 := ⟨fuel - 1, by omega⟩
    have hfuelList : fuelNeedList (r :: rs2) = fuelNeed r + fuelNeedList rs2 := rfl
    have hfp := fuelNeed_pos r
    have hchild : processState config (pre ++ RespType.listBytes (r :: rs2) ++ rest) g
        (State.getType pre.length) =
        Option.some (Except.ok (StateResult.done r (pre.length + r.as_bytes.length))) := by
      have hb : pre ++ RespType.listBytes (r :: rs2) ++ rest =
          pre ++ r.as_bytes ++ (RespType.listBytes rs2 ++ rest) := by
        simp only [RespType.listBytes, List.append_assoc]
      rw [hb]
      apply hfr r (List.mem_cons_self r rs2)
      simp only [List.length_cons] at hfuel
      omega
    simp only [processState]
    rw [if_neg (by omega)]
    simp only [Option.getD]
    rw [if_pos (by simp at hk; omega)]
    rw [hchild]
    have hcont := ih (fun v hv => hfr v (List.mem_cons_of_mem r hv))
      (elems ++ [r]) k (pre ++ r.as_bytes) rest start g
      (by simp at hk ⊢; omega) hkm
      (by simp only [List.length_cons] at hfuel; omega)
    have hb2 : pre ++ RespType.listBytes (r :: rs2) ++ rest =
        (pre ++ r.as_bytes) ++ RespType.listBytes rs2 ++ rest := by
      simp only [RespType.listBytes, List.append_assoc]
    have hlen2 : (pre ++ r.as_bytes).length = pre.length + r.as_bytes.length := by
      rw [List.length_append]
    rw [hb2, ← hlen2]
    show processState config (pre ++ r.as_bytes ++ RespType.listBytes rs2 ++ rest) g
        (State.array (pre ++ r.as_bytes).length start (Option.some k)
          (Option.some (elems ++ [r])) Option.none) =
      Option.some (Except.ok (StateResult.done (RespType.array (elems ++ r :: rs2))
        (pre.length + (RespType.listBytes (r :: rs2)).length)))
    rw [hcont]
    have hal : elems ++ [r] ++ rs2 = elems ++ r :: rs2 := by
      rw [List.append_assoc]
      rfl
    have hal2 : (pre ++ r.as_bytes).length + (RespType.listBytes rs2).length =
        pre.length + (RespType.listBytes (r :: rs2)).length := by
      simp only [RespType.listBytes, List.length_append]
      omega
    rw [hal, hal2]

theorem getType_dispatch_string (config : RespConfig) (buffer : List Nat) (f cursor : Nat)
    (hb : buffer.getD cursor 0 = 43) (hlt : cursor + 1 < buffer.length) :
    processState config buffer (f + 1) (State.getType cursor) =
      processState config buffer f (State.simple (cursor + 1) (cursor + 1) SimpleType.string) := by
  simp only [processState, hb]
  rw [if_neg (by omega)]
  simp only [if_true]
  rw [if_pos hlt]

theorem getType_dispatch_err (config : RespConfig) (buffer : List Nat) (f cursor : Nat)
    (hb : buffer.getD cursor 0 = 45) (hlt : cursor + 1 < buffer.length) :
    processState config buffer (f + 1) (State.getType cursor) =
      processState config buffer f (State.simple (cursor + 1) (cursor + 1) SimpleType.err) := by
  simp only [processState, hb]
  rw [if_neg (by omega)]
  rw [if_neg (show ¬ (45:Nat) = 43 by decide)]
  exact if_pos hlt

theorem getType_dispatch_integer (config : RespConfig) (buffer : List Nat) (f cursor : Nat)
    (hb : buffer.getD cursor 0 = 58) (hlt : cursor + 1 < buffer.length) :
    processState config buffer (f + 1) (State.getType cursor) =
      processState config buffer f (State.simple (cursor + 1) (cursor + 1) SimpleType.integer) := by
  simp only [processState, hb]
  rw [if_neg (by omega)]
  rw [if_neg (show ¬ (58:Nat) = 43 by decide)]
  rw [if_neg (show ¬ (58:Nat) = 45 by decide)]
  exact if_pos hlt

theorem getType_dispatch_bulk (config : RespConfig) (buffer : List Nat) (f cursor : Nat)
    (hb : buffer.getD cursor 0 = 36) (hlt : cursor + 1 < buffer.length) :
    processState config buffer (f + 1) (State.getType cursor) =
      processState config buffer f (State.bulkString (cursor + 1) (cursor + 1) Option.none) := by
  simp only [processState, hb]
  rw [if_neg (by omega)]
  rw [if_neg (show ¬ (36:Nat) = 43 by decide)]
  rw [if_neg (show ¬ (36:Nat) = 45 by decide)]
  rw [if_neg (show ¬ (36:Nat) = 58 by decide)]
  exact if_pos hlt

theorem getType_dispatch_array (config : RespConfig) (buffer : List Nat) (f cursor : Nat)
    (hb : buffer.getD cursor 0 = 42) (hlt : cursor + 1 < buffer.length) :
    processState config buffer (f + 1) (State.getType cursor) =
      processState config buffer f
        (State.array (cursor + 1) (cursor + 1) Option.none Option.none Option.none) := by
  simp only [processState, hb]
  rw [if_neg (by omega)]
  rw [if_neg (show ¬ (42:Nat) = 43 by decide)]
  rw [if_neg (show ¬ (42:Nat) = 45 by decide)]
  rw [if_neg (show ¬ (42:Nat) = 58 by decide)]
  rw [if_neg (show ¬ (42:Nat) = 36 by decide)]
  exact if_pos hlt

theorem processState_simple_string (config : RespConfig) (buffer : List Nat)
    (f cursor start : Nat) (line : List Nat) (nd : Nat)
    (hrl : readline buffer cursor start = Except.ok (ReadlineResult.line line nd))
    (hsz : ¬ config.max_resp_size < line.length) :
    processState config buffer (f + 1) (State.simple cursor start SimpleType.string) =
      Option.some (Except.ok (StateResult.done (RespType.simpleString line) nd)) := by
  simp only [processState, hrl]
  rw [if_neg hsz]

theorem processState_simple_err (config : RespConfig) (buffer : List Nat)
    (f cursor start : Nat) (line : List Nat) (nd : Nat)
    (hrl : readline buffer cursor start = Except.ok (ReadlineResult.line line nd))
    (hsz : ¬ config.max_resp_size < line.length) :
    processState config buffer (f + 1) (State.simple cursor start SimpleType.err) =
      Option.some (Except.ok (StateResult.done (RespType.error line) nd)) := by
  simp only [processState, hrl]
  rw [if_neg hsz]

theorem processState_simple_integer (config : RespConfig) (buffer : List Nat)
    (f cursor start : Nat) (line : List Nat) (nd : Nat) (i : Int)
    (hrl : readline buffer cursor start = Except.ok (ReadlineResult.line line nd))
    (hsz : ¬ config.max_resp_size < line.length)
    (hp : parseI64 line = Except.ok i) :
    processState config buffer (f + 1) (State.simple cursor start SimpleType.integer) =
      Option.some (Except.ok (StateResult.done (RespType.integer i) nd)) := by
  simp only [processState, hrl]
  rw [if_neg hsz]
  simp only [hp]

theorem processState_bulk_size (config : RespConfig) (buffer : List Nat)
    (f cursor start nd sz : Nat) (data : List Nat) (e2 : Nat)
    (hrs : readsize buffer cursor start = Except.ok (ReadsizeResult.size nd sz))
    (hsz : ¬ config.max_resp_size < sz)
    (hrb : readbuffer buffer nd sz = Option.some (data, e2)) :
    processState config buffer (f + 1) (State.bulkString cursor start Option.none) =
      Option.some (Except.ok (StateResult.done (RespType.bulkString data) e2)) := by
  simp only [processState, hrs, bulkPhase2]
  rw [if_neg hsz]
  simp only [hrb]

theorem processState_bulk_null (config : RespConfig) (buffer : List Nat)
    (f cursor start nd : Nat)
    (hrs : readsize buffer cursor start = Except.ok (ReadsizeResult.null nd)) :
    processState config buffer (f + 1) (State.bulkString cursor start Option.none) =
      Option.some (Except.ok (StateResult.done RespType.null nd)) := by
  simp only [processState, hrs]

theorem processState_array_null (config : RespConfig) (buffer : List Nat)
    (f cursor start nd : Nat)
    (hrs : readsize buffer cursor start = Except.ok (ReadsizeResult.null nd)) :
    processState config buffer (f + 1)
        (State.array cursor start Option.none Option.none Option.none) =
      Option.some (Except.ok (StateResult.done RespType.nullArray nd)) := by
  simp only [processState, hrs]

theorem processState_array_zero (config : RespConfig) (buffer : List Nat)
    (f cursor start nd : Nat)
    (hrs : readsize buffer cursor start = Except.ok (ReadsizeResult.size nd 0)) :
    processState config buffer (f + 1)
        (State.array cursor start Option.none Option.none Option.none) =
      Option.some (Except.ok (StateResult.done (RespType.array []) nd)) := by
  simp only [processState, hrs]
  rw [if_pos trivial]

theorem processState_array_enter (config : RespConfig) (buffer : List Nat)
    (f cursor start nd sz : Nat) (hne : sz ≠ 0)
    (hrs : readsize buffer cursor start = Except.ok (ReadsizeResult.size nd sz)) :
    processState config buffer (f + 1)
        (State.array cursor start Option.none Option.none Option.none) =
      processState config buffer f
        (State.array nd start (Option.some sz) (Option.some []) Option.none) := by
  simp only [processState, hrs]
  rw [if_neg hne]

theorem getD_head (pre : List Nat) (b : Nat) (tail : List Nat) :
    (pre ++ b :: tail).getD pre.length 0 = b := by
  have h := getD_shift pre (b :: tail) 0
  rw [Nat.add_zero] at h
  rw [h]
  rfl

theorem constructibleList_mem :
    ∀ (a : List RespType), RespType.constructibleList a → ∀ v ∈ a, RespType.constructible v := by
  intro a
  induction a with
  | nil =>
    intro _ v hv
    exact absurd hv (by simp)
  | cons w ws ih =>
    intro h v hv
    rw [List.mem_cons] at hv
    rcases hv with rfl | hv
    · exact h.1
    · exact ih h.2 v hv

theorem sizesOKList_mem :
    ∀ (a : List RespType) (m : Nat), sizesOKList m a → ∀ v ∈ a, sizesOK m v := by
  intro a
  induction a with
  | nil =>
    intro m _ v hv
    exact absurd hv (by simp)
  | cons w ws ih =>
    intro m h v hv
    rw [List.mem_cons] at hv
    rcases hv with rfl | hv
    · exact h.1
    · exact ih m h.2 v hv

theorem intDecimal_ascii (i : Int) : ∀ b ∈ intDecimal i, 45 ≤ b ∧ b ≤ 57 := by
  intro b hb
  unfold intDecimal at hb
  split at hb
  · rw [List.mem_cons] at hb
    rcases hb with rfl | hb
    · omega
    · have := (natDecimal_spec (-i).toNat).1 b hb
      omega
  · have := (natDecimal_spec i.toNat).1 b hb
    omega

theorem readsize_null_line (pre rest : List Nat) :
    readsize (pre ++ [45, 49] ++ 13 :: 10 :: rest) pre.length pre.length =
      Except.ok (ReadsizeResult.null (pre.length + 2 + 2)) := by
  have hrl := readline_of_clean pre [45, 49] rest (by decide) (by decide) (by decide)
  have hp : parseI64 [45, 49] = Except.ok (-1) := by decide
  simp only [readsize, hrl, hp]
  rw [if_neg (by decide), if_pos trivial]
  rfl

theorem parse_frame_strong (config : RespConfig)
    (hmax : (config.max_resp_size : Int) ≤ i64Max) :
    ∀ (N : Nat) (v : RespType), RespType.sizeM v ≤ N → RespType.constructible v →
      sizesOK config.max_resp_size v → FrameOK config v := by
  intro N
  induction N with
  | zero =>
    intro v h _ _
    have := sizeM_pos v
    omega
  | succ n ih =>
    intro v hsz hcon hsok pre rest fuel hfuel
    have hf2 := fuelNeed_pos v
    obtain ⟨f, rfl⟩ : ∃ f, fuel = f + 1 := ⟨fuel - 1, by omega⟩
    obtain ⟨f2, rfl⟩ : ∃ f2, f = f2 + 1 := ⟨f - 1, by omega⟩
    cases v with
    | simpleString s =>
      obtain ⟨h13, h10, hutf⟩ := hcon
      have hslen : s.length ≤ config.max_resp_size := hsok
      have hshape : pre ++ (RespType.simpleString s).as_bytes ++ rest =
          (pre ++ [43]) ++ s ++ 13 :: 10 :: rest := by
        simp [RespType.as_bytes]
      have hl1 : (pre ++ [43]).length = pre.length + 1 := by simp
      have hrlc := readline_of_clean (pre ++ [43]) s rest h13 hutf h10
      rw [hl1] at hrlc
      have hlenB : ((pre ++ [43]) ++ s ++ 13 :: 10 :: rest).length =
          pre.length + s.length + 3 + rest.length := by
        simp [List.length_append]
        omega
      rw [hshape]
      rw [getType_dispatch_string config ((pre ++ [43]) ++ s ++ 13 :: 10 :: rest) (f2 + 1)
        pre.length
        (by rw [List.append_assoc, List.append_assoc, List.singleton_append]; exact getD_head pre 43 (s ++ 13 :: 10 :: rest))
        (by rw [hlenB]; omega)]
      rw [processState_simple_string config _ f2 (pre.length + 1) (pre.length + 1) s
        (pre.length + 1 + s.length + 2) hrlc (by omega)]
      have hend : pre.length + 1 + s.length + 2 =
          pre.length + (RespType.simpleString s).as_bytes.length := by
        simp [RespType.as_bytes]
        omega
      rw [hend]
    | error s =>
      obtain ⟨h13, h10, hutf⟩ := hcon
      have hslen : s.length ≤ config.max_resp_size := hsok
      have hshape : pre ++ (RespType.error s).as_bytes ++ rest =
          (pre ++ [45]) ++ s ++ 13 :: 10 :: rest := by
        simp [RespType.as_bytes]
      have hl1 : (pre ++ [45]).length = pre.length + 1 := by simp
      have hrlc := readline_of_clean (pre ++ [45]) s rest h13 hutf h10
      rw [hl1] at hrlc
      have hlenB : ((pre ++ [45]) ++ s ++ 13 :: 10 :: rest).length =
          pre.length + s.length + 3 + rest.length := by
        simp [List.length_append]
        omega
      rw [hshape]
      rw [getType_dispatch_err config ((pre ++ [45]) ++ s ++ 13 :: 10 :: rest) (f2 + 1)
        pre.length
        (by rw [List.append_assoc, List.append_assoc, List.singleton_append]; exact getD_head pre 45 (s ++ 13 :: 10 :: rest))
        (by rw [hlenB]; omega)]
      rw [processState_simple_err config _ f2 (pre.length + 1) (pre.length + 1) s
        (pre.length + 1 + s.length + 2) hrlc (by omega)]
      have hend : pre.length + 1 + s.length + 2 =
          pre.length + (RespType.error s).as_bytes.length := by
        simp [RespType.as_bytes]
        omega
      rw [hend]
    | integer i =>
      obtain ⟨hlo, hhi⟩ := hcon
      have hilen : (intDecimal i).length ≤ config.max_resp_size := hsok
      have hasc := intDecimal_ascii i
      have h13 : ¬ 13 ∈ intDecimal i := fun hc => by have := hasc 13 hc; omega
      have h10 : ¬ 10 ∈ intDecimal i := fun hc => by have := hasc 10 hc; omega
      have hutf : utf8Valid (intDecimal i) = true :=
        utf8Valid_of_ascii _ (fun b hb => by have := hasc b hb; omega)
      have hshape : pre ++ (RespType.integer i).as_bytes ++ rest =
          (pre ++ [58]) ++ intDecimal i ++ 13 :: 10 :: rest := by
        simp [RespType.as_bytes]
      have hl1 : (pre ++ [58]).length = pre.length + 1 := by simp
      have hrlc := readline_of_clean (pre ++ [58]) (intDecimal i) rest h13 hutf h10
      rw [hl1] at hrlc
      have hlenB : ((pre ++ [58]) ++ intDecimal i ++ 13 :: 10 :: rest).length =
          pre.length + (intDecimal i).length + 3 + rest.length := by
        simp [List.length_append]
        omega
      rw [hshape]
      rw [getType_dispatch_integer config ((pre ++ [58]) ++ intDecimal i ++ 13 :: 10 :: rest)
        (f2 + 1) pre.length
        (by rw [List.append_assoc, List.append_assoc, List.singleton_append]; exact getD_head pre 58 (intDecimal i ++ 13 :: 10 :: rest))
        (by rw [hlenB]; omega)]
      rw [processState_simple_integer config _ f2 (pre.length + 1) (pre.length + 1)
        (intDecimal i) (pre.length + 1 + (intDecimal i).length + 2) i hrlc (by omega)
        (parseI64_intDecimal i hlo hhi)]
      have hend : pre.length + 1 + (intDecimal i).length + 2 =
          pre.length + (RespType.integer i).as_bytes.length := by
        simp [RespType.as_bytes]
        omega
      rw [hend]
    | bulkString b =>
      have hblen : b.length ≤ config.max_resp_size := hsok
      have hshape : pre ++ (RespType.bulkString b).as_bytes ++ rest =
          (pre ++ [36]) ++ natDecimal b.length ++ 13 :: 10 :: (b ++ 13 :: 10 :: rest) := by
        simp [RespType.as_bytes]
      have hl1 : (pre ++ [36]).length = pre.length + 1 := by simp
      have hrs := readsize_of_nat (pre ++ [36]) (b ++ 13 :: 10 :: rest) b.length
        (by omega)
      rw [hl1] at hrs
      have hrb := readbuffer_at (pre ++ [36] ++ natDecimal b.length ++ [13, 10]) b 13 10 rest
      have hshape2 : (pre ++ [36] ++ natDecimal b.length ++ [13, 10]) ++ b ++ 13 :: 10 :: rest =
          (pre ++ [36]) ++ natDecimal b.length ++ 13 :: 10 :: (b ++ 13 :: 10 :: rest) := by
        simp [List.append_assoc]
      have hplen : (pre ++ [36] ++ natDecimal b.length ++ [13, 10]).length =
          pre.length + 1 + (natDecimal b.length).length + 2 := by
        simp [List.length_append]
        omega
      rw [hshape2, hplen] at hrb
      have hlenB : ((pre ++ [36]) ++ natDecimal b.length ++
          13 :: 10 :: (b ++ 13 :: 10 :: rest)).length =
          pre.length + (natDecimal b.length).length + b.length + 5 + rest.length := by
        simp [List.length_append]
        omega
      rw [hshape]
      rw [getType_dispatch_bulk config _ (f2 + 1) pre.length
        (by rw [List.append_assoc, List.append_assoc, List.singleton_append]
            exact getD_head pre 36 (natDecimal b.length ++ 13 :: 10 :: (b ++ 13 :: 10 :: rest)))
        (by rw [hlenB]; omega)]
      rw [processState_bulk_size config _ f2 (pre.length + 1) (pre.length + 1)
        (pre.length + 1 + (natDecimal b.length).length + 2) b.length b
        (pre.length + 1 + (natDecimal b.length).length + 2 + b.length + 2) hrs (by omega) hrb]
      have hend : pre.length + 1 + (natDecimal b.length).length + 2 + b.length + 2 =
          pre.length + (RespType.bulkString b).as_bytes.length := by
        simp [RespType.as_bytes, List.length_append]
        omega
      rw [hend]
    | null =>
      have hshape : pre ++ RespType.null.as_bytes ++ rest =
          (pre ++ [36]) ++ [45, 49] ++ 13 :: 10 :: rest := by
        simp [RespType.as_bytes]
      have hl1 : (pre ++ [36]).length = pre.length + 1 := by simp
      have hrs := readsize_null_line (pre ++ [36]) rest
      rw [hl1] at hrs
      have hlenB : ((pre ++ [36]) ++ [45, 49] ++ 13 :: 10 :: rest).length =
          pre.length + 5 + rest.length := by
        simp [List.length_append]
        omega
      rw [hshape]
      rw [getType_dispatch_bulk config _ (f2 + 1) pre.length
        (by rw [List.append_assoc, List.append_assoc, List.singleton_append]; exact getD_head pre 36 ([45, 49] ++ 13 :: 10 :: rest))
        (by rw [hlenB]; omega)]
      rw [processState_bulk_null config _ f2 (pre.length + 1) (pre.length + 1)
        (pre.length + 1 + 2 + 2) hrs]
      have hend : pre.length + 1 + 2 + 2 = pre.length + RespType.null.as_bytes.length := by
        simp [RespType.as_bytes]
      rw [hend]
    | nullArray =>
      have hshape : pre ++ RespType.nullArray.as_bytes ++ rest =
          (pre ++ [42]) ++ [45, 49] ++ 13 :: 10 :: rest := by
        simp [RespType.as_bytes]
      have hl1 : (pre ++ [42]).length = pre.length + 1 := by simp
      have hrs := readsize_null_line (pre ++ [42]) rest
      rw [hl1] at hrs
      have hlenB : ((pre ++ [42]) ++ [45, 49] ++ 13 :: 10 :: rest).length =
          pre.length + 5 + rest.length := by
        simp [List.length_append]
        omega
      rw [hshape]
      rw [getType_dispatch_array config _ (f2 + 1) pre.length
        (by rw [List.append_assoc, List.append_assoc, List.singleton_append]; exact getD_head pre 42 ([45, 49] ++ 13 :: 10 :: rest))
        (by rw [hlenB]; omega)]
      rw [processState_array_null config _ f2 (pre.length + 1) (pre.length + 1)
        (pre.length + 1 + 2 + 2) hrs]
      have hend : pre.length + 1 + 2 + 2 = pre.length + RespType.nullArray.as_bytes.length := by
        simp [RespType.as_bytes]
      rw [hend]
    | array a =>
      have hklen : a.length ≤ config.max_resp_size := hsok.1
      have hconL : RespType.constructibleList a := hcon
      have hsokL : sizesOKList config.max_resp_size a := hsok.2
      have hlszn : RespType.listSizeM a ≤ n := by
        have hx : RespType.sizeM (RespType.array a) = 1 + RespType.listSizeM a := rfl
        omega
      by_cases ha : a = []
      · subst ha
        have hshape : pre ++ (RespType.array []).as_bytes ++ rest =
            (pre ++ [42]) ++ natDecimal 0 ++ 13 :: 10 :: rest := by
          simp [RespType.as_bytes, RespType.listBytes]
        have hl1 : (pre ++ [42]).length = pre.length + 1 := by simp
        have hrs := readsize_of_nat (pre ++ [42]) rest 0 (by unfold i64Max; omega)
        rw [hl1] at hrs
        have hndl : (natDecimal 0).length = 1 := rfl
        have hlenB : ((pre ++ [42]) ++ natDecimal 0 ++ 13 :: 10 :: rest).length =
            pre.length + 4 + rest.length := by
          simp [List.length_append, hndl]
          omega
        rw [hshape]
        rw [getType_dispatch_array config _ (f2 + 1) pre.length
          (by rw [List.append_assoc, List.append_assoc, List.singleton_append]; exact getD_head pre 42 (natDecimal 0 ++ 13 :: 10 :: rest))
          (by rw [hlenB]; omega)]
        rw [processState_array_zero config _ f2 (pre.length + 1) (pre.length + 1)
          (pre.length + 1 + (natDecimal 0).length + 2) hrs]
        have hend : pre.length + 1 + (natDecimal 0).length + 2 =
            pre.length + (RespType.array []).as_bytes.length := by
          simp [RespType.as_bytes, RespType.listBytes, hndl]
        rw [hend]
      · have hk1 : 1 ≤ a.length := by
          cases a with
          | nil => exact absurd rfl ha
          | cons x xs => simp
        obtain ⟨f3, rfl⟩ : ∃ f3, f2 = f3 + 1 := by
          refine ⟨f2 - 1, ?_⟩
          have : fuelNeed (RespType.array a) = 3 + a.length + fuelNeedList a := rfl
          omega
        have hshape : pre ++ (RespType.array a).as_bytes ++ rest =
            (pre ++ [42]) ++ natDecimal a.length ++
              13 :: 10 :: (RespType.listBytes a ++ rest) := by
          simp [RespType.as_bytes]
        have hl1 : (pre ++ [42]).length = pre.length + 1 := by simp
        have hrs := readsize_of_nat (pre ++ [42]) (RespType.listBytes a ++ rest) a.length
          (by omega)
        rw [hl1] at hrs
        have hlbl := listBytes_length_ge a
        have hlenB : ((pre ++ [42]) ++ natDecimal a.length ++
            13 :: 10 :: (RespType.listBytes a ++ rest)).length =
            pre.length + (natDecimal a.length).length + (RespType.listBytes a).length +
              3 + rest.length := by
          simp [List.length_append]
          omega
        have hfr : ∀ v ∈ a, FrameOK config v := by
          intro v hv
          exact ih v (by have := sizeM_mem_le a v hv; omega)
            (constructibleList_mem a hconL v hv)
            (sizesOKList_mem a config.max_resp_size hsokL v hv)
        have helems := parse_elems config a hfr []
          a.length (pre ++ [42] ++ natDecimal a.length ++ [13, 10]) rest
          (pre.length + 1) (f3 + 1) (by simp) hklen
          (by have : fuelNeed (RespType.array a) = 3 + a.length + fuelNeedList a := rfl
              omega)
        have hshape3 : (pre ++ [42] ++ natDecimal a.length ++ [13, 10]) ++
            RespType.listBytes a ++ rest =
            (pre ++ [42]) ++ natDecimal a.length ++
              13 :: 10 :: (RespType.listBytes a ++ rest) := by
          simp [List.append_assoc]
        have hplen : (pre ++ [42] ++ natDecimal a.length ++ [13, 10]).length =
            pre.length + 1 + (natDecimal a.length).length + 2 := by
          simp [List.length_append]
          omega
        rw [hshape3, hplen] at helems
        rw [hshape]
        rw [getType_dispatch_array config _ ((f3 + 1) + 1) pre.length
          (by rw [List.append_assoc, List.append_assoc, List.singleton_append]
              exact getD_head pre 42 (natDecimal a.length ++
                13 :: 10 :: (RespType.listBytes a ++ rest)))
          (by rw [hlenB]; omega)]
        rw [processState_array_enter config _ (f3 + 1) (pre.length + 1) (pre.length + 1)
          (pre.length + 1 + (natDecimal a.length).length + 2) a.length (by omega) hrs]
        rw [helems]
        have hend : pre.length + 1 + (natDecimal a.length).length + 2 +
            (RespType.listBytes a).length =
            pre.length + (RespType.array a).as_bytes.length := by
          simp [RespType.as_bytes, List.length_append]
          omega
        have hnil : ([] : List RespType) ++ a = a := by simp
        rw [hnil, hend]

theorem processState_getType_empty (config : RespConfig) (f : Nat) :
    processState config [] (f + 1) (State.getType 0) =
      Option.some (Except.ok (StateResult.incomplete (State.getType 0))) := rfl

theorem readLoop_emptybuf (config : RespConfig) (pfuel l : Nat) (items : List RespType) :
    readLoop config (pfuel + 1) (l + 1) [] items =
      Option.some (Except.ok items, [], Option.some (State.getType 0)) := by
  simp only [readLoop, processState_getType_empty]

theorem read_single_frame (config : RespConfig) (v : RespType) (fuel : Nat)
    (hfr : FrameOK config v)
    (hbuf : v.as_bytes.length ≤ config.max_buffer_size)
    (hfuel : fuelNeed v + 2 ≤ fuel) :
    RespParser.read fuel (RespParser.new config) v.as_bytes =
      Option.some (Except.ok [v],
        ⟨[], Option.some (State.getType 0), config⟩) := by
  obtain ⟨g, rfl⟩ : ∃ g, fuel = g + 2 := ⟨fuel - 2, by have := fuelNeed_pos v; omega⟩
  have hps := hfr [] [] (g + 2) (by omega)
  simp only [List.nil_append, List.append_nil, List.length_nil, Nat.zero_add] at hps
  simp only [RespParser.read, RespParser.new, List.nil_append]
  rw [if_neg (by omega)]
  have hloop : readLoop config (g + 2) (g + 2) v.as_bytes [] =
      Option.some (Except.ok [v], [], Option.some (State.getType 0)) := by
    have hunf : readLoop config (g + 2) (g + 2) v.as_bytes [] =
        match processState config v.as_bytes (g + 2) (State.getType 0) with
        | Option.none => Option.none
        | Option.some (Except.error e) => Option.some (Except.error e, [], Option.none)
        | Option.some (Except.ok (StateResult.incomplete s)) =>
          Option.some (Except.ok [], v.as_bytes, Option.some s)
        | Option.some (Except.ok (StateResult.done v1 endPos)) =>
          readLoop config (g + 2) (g + 1) (v.as_bytes.drop endPos) ([] ++ [v1]) := rfl
    rw [hunf, hps]
    show readLoop config (g + 2) (g + 1) (v.as_bytes.drop v.as_bytes.length) ([] ++ [v]) =
      Option.some (Except.ok [v], [], Option.some (State.getType 0))
    rw [List.drop_length, List.nil_append]
    exact readLoop_emptybuf config (g + 1) g [v]
  rw [hloop]



theorem bulk_as_bytes_length_lb (b : List Nat) :
    5 + b.length ≤ (RespType.bulkString b).as_bytes.length := by
  simp only [RespType.as_bytes, List.length_cons, List.length_append]
  omega

/-- C2 counterexample to the unrestricted round-trip: the guarded constructors
accept a bulk string of 536870913 bytes, but its encoding exceeds the default
`max_buffer_size` (536870912), so `read` on a fresh default parser returns the
`SizeExceeded` error instead of `Ok([v])`, for every fuel. -/
theorem claim_C2_counterexample :
    RespType.constructible (RespType.bulkString (List.replicate 536870913 0)) ∧
    ∀ fuel : Nat, RespParser.read fuel RespParser.defaultParser
        (RespType.bulkString (List.replicate 536870913 0)).as_bytes =
      Option.some (Except.error ParserError.sizeExceededError,
        ⟨[], Option.none, RespConfig.defaultConfig⟩) := by
  constructor
  · trivial
  · intro fuel
    have hgt : 536870912 <
        (RespType.bulkString (List.replicate 536870913 0)).as_bytes.length := by
      have h := bulk_as_bytes_length_lb (List.replicate 536870913 0)
      rw [List.length_replicate] at h
      omega
    simp only [RespParser.read, RespParser.defaultParser, RespParser.new,
      RespConfig.defaultConfig, List.nil_append]
    rw [if_pos hgt]

/-- C2 (amended): for every value v accepted by the guarded constructors whose
encoding fits within the default 512 MiB buffer limit, feeding `v.as_bytes` to
a fresh parser with default configuration returns `Ok [v]`, leaving an empty
buffer and the initial `GetType` state (given enough fuel, i.e. in Rust where
the recursion is unbounded). -/
theorem claim_C2_roundtrip_amended (v : RespType) (fuel : Nat)
    (hcon : RespType.constructible v)
    (hlen : v.as_bytes.length ≤ 536870912)
    (hfuel : fuelNeed v + 2 ≤ fuel) :
    RespParser.read fuel RespParser.defaultParser v.as_bytes =
      Option.some (Except.ok [v],
        ⟨[], Option.some (State.getType 0), RespConfig.defaultConfig⟩) := by
  have hsok : sizesOK RespConfig.defaultConfig.max_resp_size v :=
    sizesOK_of_length (RespType.sizeM v) v RespConfig.defaultConfig.max_resp_size
      le_rfl hlen
  have hmax : (RespConfig.defaultConfig.max_resp_size : Int) ≤ i64Max := by decide
  have hfr : FrameOK RespConfig.defaultConfig v :=
    parse_frame_strong RespConfig.defaultConfig hmax (RespType.sizeM v) v
      le_rfl hcon hsok
  exact read_single_frame RespConfig.defaultConfig v fuel hfr hlen hfuel

/-- Concrete round-trip instance: "+OK\r\n" decodes back to SimpleString "OK". -/
theorem claim_C2_roundtrip_amended_witness :
    RespType.constructible (RespType.simpleString [79, 75]) ∧
    (RespType.simpleString [79, 75]).as_bytes.length ≤ 536870912 ∧
    fuelNeed (RespType.simpleString [79, 75]) + 2 ≤ 4 ∧
    RespParser.read 4 RespParser.defaultParser (RespType.simpleString [79, 75]).as_bytes =
      Option.some (Except.ok [RespType.simpleString [79, 75]],
        ⟨[], Option.some (State.getType 0), RespConfig.defaultConfig⟩) :=
  ⟨⟨by decide, by decide, rfl⟩, by decide, by decide,
    claim_C2_roundtrip_amended (RespType.simpleString [79, 75]) 4
      ⟨by decide, by decide, rfl⟩ (by decide) (by decide)⟩

theorem processState_mono (config : RespConfig) (buffer : List Nat) :
    ∀ (f : Nat) (s : State) (r : Except ParserError StateResult),
      processState config buffer f s = Option.some r →
      ∀ g : Nat, f ≤ g → processState config buffer g s = Option.some r := by
  intro f
  induction f with
  | zero =>
    intro s r h
    simp [processState] at h
  | succ n ih =>
    intro s r h g hg
    obtain ⟨m, rfl⟩ : ∃ m, g = m + 1 := ⟨g - 1, by omega⟩
    have hnm : n ≤ m := by omega
    match s with
    | State.getType cursor =>
      simp only [processState] at h ⊢
      split
      · rename_i hc
        rw [if_pos hc] at h
        exact h
      · rename_i hc
        rw [if_neg hc] at h
        split
        · rename_i e heq
          simp only [heq] at h
          exact h
        · rename_i s2 heq
          simp only [heq] at h
          split
          · rename_i hlt
            rw [if_pos hlt] at h
            exact ih s2 r h m hnm
          · rename_i hlt
            rw [if_neg hlt] at h
            exact h
    | State.simple cursor start ty =>
      simp only [processState] at h ⊢
      exact h
    | State.bulkString cursor start sizeOpt =>
      simp only [processState] at h ⊢
      exact h
    | State.array cursor start Option.none elementsOpt substateOpt =>
      simp only [processState] at h ⊢
      split
      · rename_i e heq
        simp only [heq] at h
        exact h
      · rename_i nd heq
        simp only [heq] at h
        exact h
      · rename_i nd heq
        simp only [heq] at h
        exact h
      · rename_i nd sz heq
        simp only [heq] at h
        split
        · rename_i hz
          rw [if_pos hz] at h
          exact h
        · rename_i hz
          rw [if_neg hz] at h
          exact ih _ r h m hnm
    | State.array cursor start (Option.some size) elementsOpt substateOpt =>
      simp only [processState] at h ⊢
      split
      · rename_i hbig
        rw [if_pos hbig] at h
        exact h
      · rename_i hbig
        rw [if_neg hbig] at h
        split
        · rename_i hlt
          rw [if_pos hlt] at h
          cases hch : processState config buffer n (substateOpt.getD (State.getType cursor)) with
          | none =>
            rw [hch] at h
            exact absurd h (by simp)
          | some rc =>
            rw [hch] at h
            rw [ih _ rc hch m hnm]
            match rc with
            | Except.error e => exact h
            | Except.ok (StateResult.incomplete sub) => exact h
            | Except.ok (StateResult.done v e2) =>
              show processState config buffer m _ = Option.some r
              exact ih _ r h m hnm
        · rename_i hlt
          rw [if_neg hlt] at h
          exact h

theorem getD_append_lt (l1 l2 : List Nat) (j : Nat) (h : j < l1.length) :
    (l1 ++ l2).getD j 0 = l1.getD j 0 := by
  rw [List.getD_eq_getElem?_getD, List.getD_eq_getElem?_getD, List.getElem?_append_left h]

theorem take_append_le (l1 l2 : List Nat) (n : Nat) (h : n ≤ l1.length) :
    (l1 ++ l2).take n = l1.take n := by
  rw [List.take_append_eq_append_take, Nat.sub_eq_zero_of_le h, List.take_zero,
    List.append_nil]

theorem drop_append_le (l1 l2 : List Nat) (n : Nat) (h : n ≤ l1.length) :
    (l1 ++ l2).drop n = l1.drop n ++ l2 := by
  rw [List.drop_append_eq_append_drop, Nat.sub_eq_zero_of_le h, List.drop_zero]

theorem findByteFrom_extend {buffer : List Nat} (ext : List Nat) {cursor b cr : Nat}
    (h : findByteFrom buffer cursor b = Option.some cr) :
    findByteFrom (buffer ++ ext) cursor b = Option.some cr := by
  rw [findByteFrom_eq_some_iff] at h ⊢
  obtain ⟨h1, h2, h3⟩ := h
  refine ⟨by rw [List.length_append]; omega, ?_, ?_⟩
  · rw [getD_append_lt _ _ _ h1]
    exact h2
  · intro j hcj hjc
    rw [getD_append_lt _ _ _ (by omega)]
    exact h3 j hcj hjc

theorem findByteFrom_none_of_ge (buffer : List Nat) (cursor b : Nat)
    (h : buffer.length ≤ cursor) : findByteFrom buffer cursor b = Option.none := by
  rw [findByteFrom_eq_none_iff]
  intro j hj hjl
  omega

/-- Two fallible results agree up to the payload of an error (the byte quoted
by `readline`'s expected-newline error is a cursor-relative index, so resumed
scans can report a different byte while still failing). -/
def errMatch {α : Type} (r1 r2 : Except ParserError α) : Prop :=
  r1 = r2 ∨ ∃ e1 e2, r1 = Except.error e1 ∧ r2 = Except.error e2

theorem errMatch_refl {α : Type} (r : Except ParserError α) : errMatch r r :=
  Or.inl rfl

theorem readline_extend_agree (buffer ext : List Nat) (cursor start : Nat)
    (r : Except ParserError ReadlineResult)
    (h : readline buffer cursor start = r)
    (hnn : ∀ nd, r ≠ Except.ok (ReadlineResult.none nd)) :
    readline (buffer ++ ext) cursor start = r := by
  unfold readline at h ⊢
  cases hf : findByteFrom buffer cursor 13 with
  | none =>
    simp only [hf] at h
    exact absurd h.symm (hnn buffer.length)
  | some cr =>
    simp only [hf] at h
    simp only [findByteFrom_extend ext hf]
    split at h
    · rename_i hlen1
      rw [if_pos (show cursor + cr + 2 ≤ (buffer ++ ext).length by
        rw [List.length_append]; omega)]
      rw [getD_append_lt buffer ext (cursor + cr + 2 - 1) (by omega)]
      rw [take_append_le buffer ext (cursor + cr) (by omega)]
      rw [getD_append_lt buffer ext (cr + 1) (by omega)]
      exact h
    · exact absurd h.symm (hnn (buffer.length - 1))

theorem readline_none_cases (buffer : List Nat) (cursor start nd : Nat)
    (h : readline buffer cursor start = Except.ok (ReadlineResult.none nd)) :
    (findByteFrom buffer cursor 13 = Option.none ∧ nd = buffer.length) ∨
      ∃ cr, findByteFrom buffer cursor 13 = Option.some cr ∧
        buffer.length < cursor + cr + 2 ∧ nd = buffer.length - 1 := by
  unfold readline at h
  cases hf : findByteFrom buffer cursor 13 with
  | none =>
    simp only [hf, Except.ok.injEq, ReadlineResult.none.injEq] at h
    exact Or.inl ⟨rfl, h.symm⟩
  | some cr =>
    simp only [hf] at h
    split at h
    · split at h
      · split at h
        · split at h
          · exact absurd h (by simp)
          · exact absurd h (by simp)
        · exact absurd h (by simp)
      · exact absurd h (by simp)
    · rename_i hlen
      simp only [Except.ok.injEq, ReadlineResult.none.injEq] at h
      exact Or.inr ⟨cr, rfl, by omega, h.symm⟩

theorem readline_cursor_shift (B : List Nat) (c1 c2 start : Nat)
    (h12 : c1 ≤ c2)
    (hmid : ∀ j, c1 ≤ j → j < c2 → B.getD j 0 ≠ 13) :
    errMatch (readline B c1 start) (readline B c2 start) := by
  cases h2 : findByteFrom B c2 13 with
  | none =>
    have h1 : findByteFrom B c1 13 = Option.none := by
      rw [findByteFrom_eq_none_iff] at h2 ⊢
      intro j hj hjl
      by_cases hc : j < c2
      · exact hmid j hj hc
      · exact h2 j (by omega) hjl
    unfold readline
    simp only [h1, h2]
    exact errMatch_refl _
  | some cr2 =>
    have h2' := (findByteFrom_eq_some_iff B c2 13 cr2).mp h2
    have h1 : findByteFrom B c1 13 = Option.some (c2 + cr2 - c1) := by
      rw [findByteFrom_eq_some_iff]
      refine ⟨by omega, ?_, ?_⟩
      · have he : c1 + (c2 + cr2 - c1) = c2 + cr2 := by omega
        rw [he]
        exact h2'.2.1
      · intro j hj hjc
        by_cases hc : j < c2
        · exact hmid j hj hc
        · exact h2'.2.2 j (by omega) (by omega)
    unfold readline
    simp only [h1, h2]
    have he : c1 + (c2 + cr2 - c1) = c2 + cr2 := by omega
    rw [he]
    split
    · split
      · exact errMatch_refl _
      · exact Or.inr ⟨_, _, rfl, rfl⟩
    · exact errMatch_refl _

theorem readline_resume (buffer ext : List Nat) (cursor start nd : Nat)
    (hc : cursor ≤ buffer.length)
    (h : readline buffer cursor start = Except.ok (ReadlineResult.none nd)) :
    errMatch (readline (buffer ++ ext) cursor start)
      (readline (buffer ++ ext) nd start) := by
  rcases readline_none_cases buffer cursor start nd h with ⟨hf, hnd⟩ | ⟨cr, hf, hlen, hnd⟩
  · subst hnd
    apply readline_cursor_shift _ _ _ _ hc
    intro j hj hjl
    rw [getD_append_lt _ _ _ hjl]
    rw [findByteFrom_eq_none_iff] at hf
    exact hf j hj hjl
  · have hs := (findByteFrom_eq_some_iff buffer cursor 13 cr).mp hf
    have hnd2 : nd = cursor + cr := by omega
    subst hnd2
    apply readline_cursor_shift _ _ _ _ (by omega)
    intro j hj hjl
    rw [getD_append_lt _ _ _ (by omega)]
    exact hs.2.2 j hj hjl

theorem readsize_none_inv (buffer : List Nat) (cursor start nd : Nat)
    (h : readsize buffer cursor start = Except.ok (ReadsizeResult.none nd)) :
    readline buffer cursor start = Except.ok (ReadlineResult.none nd) := by
  unfold readsize at h
  cases hrl : readline buffer cursor start with
  | error e =>
    rw [hrl] at h
    exact absurd h (by simp)
  | ok rr =>
    match rr with
    | ReadlineResult.line line e2 =>
      exfalso
      simp only [hrl] at h
      cases hp : parseI64 line with
      | error e =>
        simp only [hp] at h
        exact absurd h (by simp)
      | ok sz =>
        simp only [hp] at h
        split at h
        · exact absurd h (by simp)
        · split at h
          · exact absurd h (by simp)
          · exact absurd h (by simp)
    | ReadlineResult.none e2 =>
      simp only [hrl, Except.ok.injEq, ReadsizeResult.none.injEq] at h
      rw [h]

theorem readsize_extend_agree (buffer ext : List Nat) (cursor start : Nat)
    (r : Except ParserError ReadsizeResult)
    (h : readsize buffer cursor start = r)
    (hnn : ∀ nd, r ≠ Except.ok (ReadsizeResult.none nd)) :
    readsize (buffer ++ ext) cursor start = r := by
  unfold readsize at h ⊢
  cases hrl : readline buffer cursor start with
  | error e =>
    rw [readline_extend_agree buffer ext cursor start _ hrl (by simp)]
    rw [hrl] at h
    exact h
  | ok rr =>
    match rr with
    | ReadlineResult.line line e2 =>
      rw [readline_extend_agree buffer ext cursor start _ hrl (by simp)]
      rw [hrl] at h
      exact h
    | ReadlineResult.none e2 =>
      simp only [hrl] at h
      exact absurd h.symm (hnn e2)

theorem readsize_resume (buffer ext : List Nat) (cursor start nd : Nat)
    (hc : cursor ≤ buffer.length)
    (h : readsize buffer cursor start = Except.ok (ReadsizeResult.none nd)) :
    errMatch (readsize (buffer ++ ext) cursor start)
      (readsize (buffer ++ ext) nd start) := by
  have hrl := readsize_none_inv buffer cursor start nd h
  have hm := readline_resume buffer ext cursor start nd hc hrl
  unfold readsize
  rcases hm with heq | ⟨e1, e2, he1, he2⟩
  · rw [heq]
    exact errMatch_refl _
  · rw [he1, he2]
    exact Or.inr ⟨e1, e2, rfl, rfl⟩

theorem readbuffer_extend (buffer ext : List Nat) (cursor size : Nat)
    (data : List Nat) (e : Nat)
    (h : readbuffer buffer cursor size = Option.some (data, e)) :
    readbuffer (buffer ++ ext) cursor size = Option.some (data, e) := by
  unfold readbuffer at h ⊢
  dsimp only at h ⊢
  split at h
  · rename_i hle
    rw [if_pos (show cursor + size + 2 ≤ (buffer ++ ext).length by
      rw [List.length_append]; omega)]
    rw [drop_append_le _ _ _ (by omega)]
    rw [take_append_le _ _ _ (by rw [List.length_drop]; omega)]
    exact h
  · exact absurd h (by simp)

theorem bulkPhase2_extend (config : RespConfig) (buffer ext : List Nat)
    (cursor start size : Nat) (r : Except ParserError StateResult)
    (h : bulkPhase2 config buffer cursor start size = Option.some r)
    (hni : ∀ s2, r ≠ Except.ok (StateResult.incomplete s2)) :
    bulkPhase2 config (buffer ++ ext) cursor start size = Option.some r := by
  unfold bulkPhase2 at h ⊢
  split at h
  · rename_i hbig
    rw [if_pos hbig]
    exact h
  · rename_i hbig
    rw [if_neg hbig]
    cases hrb : readbuffer buffer cursor size with
    | some pr =>
      obtain ⟨data, e2⟩ := pr
      simp only [hrb] at h
      simp only [readbuffer_extend buffer ext cursor size data e2 hrb]
      exact h
    | none =>
      simp only [hrb, Option.some.injEq] at h
      exact absurd h.symm (hni _)

theorem processState_extend (config : RespConfig) (buffer ext : List Nat) :
    ∀ (f : Nat) (s : State) (r : Except ParserError StateResult),
      processState config buffer f s = Option.some r →
      (∀ s2, r ≠ Except.ok (StateResult.incomplete s2)) →
      processState config (buffer ++ ext) f s = Option.some r := by
  intro f
  induction f with
  | zero =>
    intro s r h
    simp [processState] at h
  | succ n ih =>
    intro s r h hni
    match s with
    | State.getType cursor =>
      simp only [processState] at h ⊢
      split at h
      · rename_i hc
        simp only [Option.some.injEq] at h
        exact absurd h.symm (hni _)
      · rename_i hc
        have hcl : cursor < buffer.length := by omega
        rw [if_neg (show ¬ (buffer ++ ext).length ≤ cursor by
          rw [List.length_append]; omega)]
        rw [getD_append_lt buffer ext cursor hcl]
        split at h
        · rename_i e heq
          exact h
        · rename_i s2 heq
          split at h
          · rename_i hlt
            rw [if_pos (show cursor + 1 < (buffer ++ ext).length by
              rw [List.length_append]; omega)]
            exact ih s2 r h hni
          · rename_i hlt
            simp only [Option.some.injEq] at h
            exact absurd h.symm (hni s2)
    | State.simple cursor start ty =>
      simp only [processState] at h ⊢
      cases hrl : readline buffer cursor start with
      | error e =>
        simp only [readline_extend_agree buffer ext cursor start _ hrl (by simp)]
        simp only [hrl] at h
        exact h
      | ok rr =>
        match rr with
        | ReadlineResult.line line e2 =>
          simp only [readline_extend_agree buffer ext cursor start _ hrl (by simp)]
          simp only [hrl] at h
          exact h
        | ReadlineResult.none e2 =>
          simp only [hrl, Option.some.injEq] at h
          exact absurd h.symm (hni _)
    | State.bulkString cursor start Option.none =>
      simp only [processState] at h ⊢
      cases hrs : readsize buffer cursor start with
      | error e =>
        simp only [readsize_extend_agree buffer ext cursor start _ hrs (by simp)]
        simp only [hrs] at h
        exact h
      | ok rr =>
        match rr with
        | ReadsizeResult.none e2 =>
          simp only [hrs, Option.some.injEq] at h
          exact absurd h.symm (hni _)
        | ReadsizeResult.null e2 =>
          simp only [readsize_extend_agree buffer ext cursor start _ hrs (by simp)]
          simp only [hrs] at h
          exact h
        | ReadsizeResult.size e2 sz =>
          simp only [readsize_extend_agree buffer ext cursor start _ hrs (by simp)]
          simp only [hrs] at h
          exact bulkPhase2_extend config buffer ext e2 start sz r h hni
    | State.bulkString cursor start (Option.some size) =>
      simp only [processState] at h ⊢
      exact bulkPhase2_extend config buffer ext cursor start size r h hni
    | State.array cursor start Option.none eo so =>
      simp only [processState] at h ⊢
      cases hrs : readsize buffer cursor start with
      | error e =>
        simp only [readsize_extend_agree buffer ext cursor start _ hrs (by simp)]
        simp only [hrs] at h
        exact h
      | ok rr =>
        match rr with
        | ReadsizeResult.none e2 =>
          simp only [hrs, Option.some.injEq] at h
          exact absurd h.symm (hni _)
        | ReadsizeResult.null e2 =>
          simp only [readsize_extend_agree buffer ext cursor start _ hrs (by simp)]
          simp only [hrs] at h
          exact h
        | ReadsizeResult.size e2 sz =>
          simp only [readsize_extend_agree buffer ext cursor start _ hrs (by simp)]
          simp only [hrs] at h
          split at h
          · rename_i hz
            rw [if_pos hz]
            exact h
          · rename_i hz
            rw [if_neg hz]
            exact ih _ r h hni
    | State.array cursor start (Option.some size) eo so =>
      simp only [processState] at h ⊢
      split at h
      · rename_i hbig
        rw [if_pos hbig]
        exact h
      · rename_i hbig
        rw [if_neg hbig]
        split at h
        · rename_i hlt
          rw [if_pos hlt]
          cases hch : processState config buffer n (so.getD (State.getType cursor)) with
          | none =>
            rw [hch] at h
            exact absurd h (by simp)
          | some rc =>
            simp only [hch] at h
            match rc with
            | Except.error e =>
              simp only [ih _ _ hch (by intro s2 hx; simp at hx)]
              exact h
            | Except.ok (StateResult.incomplete sub) =>
              simp only [Option.some.injEq] at h
              exact absurd h.symm (hni _)
            | Except.ok (StateResult.done v e2) =>
              simp only [ih _ _ hch (by intro s2 hx; simp at hx)]
              exact ih _ r h hni
        · rename_i hlt
          rw [if_neg hlt]
          exact h

theorem readline_at_end (buffer : List Nat) (start : Nat) :
    readline buffer buffer.length start =
      Except.ok (ReadlineResult.none buffer.length) := by
  unfold readline
  rw [findByteFrom_none_of_ge buffer buffer.length 13 (Nat.le_refl _)]

theorem readsize_at_end (buffer : List Nat) (start : Nat) :
    readsize buffer buffer.length start =
      Except.ok (ReadsizeResult.none buffer.length) := by
  unfold readsize
  rw [readline_at_end]

theorem processState_fix_simple (config : RespConfig) (buffer : List Nat) (f : Nat)
    (start : Nat) (ty : SimpleType) :
    processState config buffer (f + 1) (State.simple buffer.length start ty) =
      Option.some (Except.ok (StateResult.incomplete
        (State.simple buffer.length start ty))) := by
  simp only [processState, readline_at_end]

theorem processState_fix_bulk (config : RespConfig) (buffer : List Nat) (f : Nat)
    (start : Nat) :
    processState config buffer (f + 1)
        (State.bulkString buffer.length start Option.none) =
      Option.some (Except.ok (StateResult.incomplete
        (State.bulkString buffer.length start Option.none))) := by
  simp only [processState, readsize_at_end]

theorem processState_fix_array (config : RespConfig) (buffer : List Nat) (f : Nat)
    (start : Nat) :
    processState config buffer (f + 1)
        (State.array buffer.length start Option.none Option.none Option.none) =
      Option.some (Except.ok (StateResult.incomplete
        (State.array buffer.length start Option.none Option.none Option.none))) := by
  simp only [processState, readsize_at_end]

theorem tokenNext_cases (buffer : List Nat) (cursor : Nat) (s2 : State)
    (heq : (if buffer.getD cursor 0 = 43 then
        Except.ok (State.simple (cursor + 1) (cursor + 1) SimpleType.string)
      else if buffer.getD cursor 0 = 45 then
        Except.ok (State.simple (cursor + 1) (cursor + 1) SimpleType.err)
      else if buffer.getD cursor 0 = 58 then
        Except.ok (State.simple (cursor + 1) (cursor + 1) SimpleType.integer)
      else if buffer.getD cursor 0 = 36 then
        Except.ok (State.bulkString (cursor + 1) (cursor + 1) Option.none)
      else if buffer.getD cursor 0 = 42 then
        Except.ok (State.array (cursor + 1) (cursor + 1)
          Option.none Option.none Option.none)
      else Except.error (ParserError.typeTokenError (buffer.getD cursor 0))) =
        Except.ok s2) :
    (∃ ty, s2 = State.simple (cursor + 1) (cursor + 1) ty) ∨
      s2 = State.bulkString (cursor + 1) (cursor + 1) Option.none ∨
      s2 = State.array (cursor + 1) (cursor + 1)
        Option.none Option.none Option.none := by
  split at heq
  · injection heq with h2
    exact Or.inl ⟨_, h2.symm⟩
  · split at heq
    · injection heq with h2
      exact Or.inl ⟨_, h2.symm⟩
    · split at heq
      · injection heq with h2
        exact Or.inl ⟨_, h2.symm⟩
      · split at heq
        · injection heq with h2
          exact Or.inr (Or.inl h2.symm)
        · split at heq
          · injection heq with h2
            exact Or.inr (Or.inr h2.symm)
          · exact absurd heq (by simp)

theorem processState_det (config : RespConfig) (B : List Nat) {f g : Nat} {s : State}
    {r1 r2 : Except ParserError StateResult}
    (h1 : processState config B f s = Option.some r1)
    (h2 : processState config B g s = Option.some r2) : r1 = r2 := by
  have m1 := processState_mono config B f s r1 h1 (max f g) (Nat.le_max_left _ _)
  have m2 := processState_mono config B g s r2 h2 (max f g) (Nat.le_max_right _ _)
  rw [m1] at m2
  exact (Option.some.injEq _ _ ▸ m2).symm ▸ rfl

theorem State.wf_array_bounds {n cursor start : Nat} {szo : Option Nat}
    {eo : Option (List RespType)} {so : Option State}
    (h : State.wf n (State.array cursor start szo eo so)) :
    start ≤ cursor ∧ cursor ≤ n := by
  cases so with
  | none => exact ⟨h.1, h.2.1⟩
  | some sub => exact ⟨h.1, h.2.1⟩

/-- Resuming a saved incomplete state on an extended buffer reaches the same
result as restarting the original state there, up to the payload of a
`readline` framing error (whose quoted byte is cursor-relative). -/
theorem processState_resume (config : RespConfig) (buffer ext : List Nat) :
    ∀ (f : Nat) (s s' : State),
      State.wf buffer.length s →
      processState config buffer f s =
        Option.some (Except.ok (StateResult.incomplete s')) →
      ∀ (g : Nat) (r : Except ParserError StateResult),
        processState config (buffer ++ ext) g s' = Option.some r →
        ∃ (h2 : Nat) (r2 : Except ParserError StateResult),
          processState config (buffer ++ ext) h2 s = Option.some r2 ∧ errMatch r r2 := by
  intro f
  induction f with
  | zero =>
    intro s s' hwf h
    simp [processState] at h
  | succ n ih =>
    intro s s' hwf h g r hg
    have horig := h
    match s with
    | State.getType cursor =>
      simp only [processState] at h
      split at h
      · rename_i hc
        simp only [Option.some.injEq, Except.ok.injEq, StateResult.incomplete.injEq] at h
        subst h
        exact ⟨g, r, hg, errMatch_refl r⟩
      · rename_i hc
        split at h
        · rename_i e heq
          exact absurd h (by simp)
        · rename_i s2 heq
          split at h
          · rename_i hlt
            have hwf2 : State.wf buffer.length s2 := by
              rcases tokenNext_cases buffer cursor s2 heq with ⟨ty, hsh⟩ | hsh | hsh <;>
                subst hsh
              · exact ⟨Nat.le_refl _, by omega⟩
              · exact ⟨Nat.le_refl _, by omega⟩
              · exact ⟨Nat.le_refl _, by omega, trivial⟩
            obtain ⟨h2, r2, hrun, hm⟩ := ih s2 s' hwf2 h g r hg
            refine ⟨h2 + 1, r2, ?_, hm⟩
            simp only [processState]
            rw [if_neg (show ¬ (buffer ++ ext).length ≤ cursor by
              rw [List.length_append]; omega)]
            rw [getD_append_lt buffer ext cursor (by omega)]
            simp only [heq]
            rw [if_pos (show cursor + 1 < (buffer ++ ext).length by
              rw [List.length_append]; omega)]
            exact hrun
          · rename_i hlt
            simp only [Option.some.injEq, Except.ok.injEq,
              StateResult.incomplete.injEq] at h
            subst h
            by_cases hext : cursor + 1 < (buffer ++ ext).length
            · refine ⟨g + 1, r, ?_, errMatch_refl r⟩
              simp only [processState]
              rw [if_neg (show ¬ (buffer ++ ext).length ≤ cursor by
                rw [List.length_append]; omega)]
              rw [getD_append_lt buffer ext cursor (by omega)]
              simp only [heq]
              rw [if_pos hext]
              exact hg
            · have hext0 : ext = [] := by
                rw [List.length_append] at hext
                have : ext.length = 0 := by omega
                exact List.eq_nil_of_length_eq_zero this
              subst hext0
              rw [List.append_nil] at hg
              have hcl : buffer.length = cursor + 1 := by omega
              obtain ⟨g1, rfl⟩ : ∃ g1, g = g1 + 1 := by
                cases g with
                | zero => simp [processState] at hg
                | succ k => exact ⟨k, rfl⟩
              rcases tokenNext_cases buffer cursor s2 heq with ⟨ty, hsh⟩ | hsh | hsh <;>
                subst hsh
              · have hfix := processState_fix_simple config buffer g1 (cursor + 1) ty
                rw [hcl] at hfix
                have hreq := processState_det config buffer hg hfix
                subst hreq
                exact ⟨n + 1, _, by rw [List.append_nil]; exact horig, errMatch_refl _⟩
              · have hfix := processState_fix_bulk config buffer g1 (cursor + 1)
                rw [hcl] at hfix
                have hreq := processState_det config buffer hg hfix
                subst hreq
                exact ⟨n + 1, _, by rw [List.append_nil]; exact horig, errMatch_refl _⟩
              · have hfix := processState_fix_array config buffer g1 (cursor + 1)
                rw [hcl] at hfix
                have hreq := processState_det config buffer hg hfix
                subst hreq
                exact ⟨n + 1, _, by rw [List.append_nil]; exact horig, errMatch_refl _⟩
    | State.simple cursor start ty =>
      simp only [processState] at h
      cases hrl : readline buffer cursor start with
      | error e =>
        rw [hrl] at h
        exact absurd h (by simp)
      | ok rr =>
        match rr with
        | ReadlineResult.line line e2 =>
          simp only [hrl] at h
          split at h
          · exact absurd h (by simp)
          · match ty with
            | SimpleType.string => exact absurd h (by simp)
            | SimpleType.err => exact absurd h (by simp)
            | SimpleType.integer =>
              cases hp : parseI64 line with
              | ok v =>
                simp only [hp] at h
                exact absurd h (by simp)
              | error e =>
                simp only [hp] at h
                exact absurd h (by simp)
        | ReadlineResult.none nd =>
          simp only [hrl, Option.some.injEq, Except.ok.injEq,
            StateResult.incomplete.injEq] at h
          subst h
          have hm := readline_resume buffer ext cursor start nd hwf.2 hrl
          obtain ⟨g1, rfl⟩ : ∃ g1, g = g1 + 1 := by
            cases g with
            | zero => simp [processState] at hg
            | succ k => exact ⟨k, rfl⟩
          simp only [processState] at hg
          rcases hm with heq | ⟨e1, e2, he1, he2⟩
          · refine ⟨g1 + 1, r, ?_, errMatch_refl r⟩
            simp only [processState]
            rw [heq]
            exact hg
          · rw [he2] at hg
            simp only [Option.some.injEq] at hg
            refine ⟨1, Except.error e1, ?_, Or.inr ⟨e2, e1, hg.symm, rfl⟩⟩
            simp only [processState, he1]
    | State.bulkString cursor start Option.none =>
      simp only [processState] at h
      cases hrs : readsize buffer cursor start with
      | error e =>
        rw [hrs] at h
        exact absurd h (by simp)
      | ok rr =>
        match rr with
        | ReadsizeResult.null nd =>
          simp only [hrs] at h
          exact absurd h (by simp)
        | ReadsizeResult.size nd sz =>
          simp only [hrs] at h
          unfold bulkPhase2 at h
          split at h
          · exact absurd h (by simp)
          · rename_i hbig
            cases hrb : readbuffer buffer nd sz with
            | some pr =>
              obtain ⟨data, e3⟩ := pr
              simp only [hrb] at h
              exact absurd h (by simp)
            | none =>
              simp only [hrb, Option.some.injEq, Except.ok.injEq,
                StateResult.incomplete.injEq] at h
              subst h
              obtain ⟨g1, rfl⟩ : ∃ g1, g = g1 + 1 := by
                cases g with
                | zero => simp [processState] at hg
                | succ k => exact ⟨k, rfl⟩
              simp only [processState] at hg
              refine ⟨1, r, ?_, errMatch_refl r⟩
              simp only [processState]
              simp only [readsize_extend_agree buffer ext cursor start _ hrs (by simp)]
              exact hg
        | ReadsizeResult.none nd =>
          simp only [hrs, Option.some.injEq, Except.ok.injEq,
            StateResult.incomplete.injEq] at h
          subst h
          have hm := readsize_resume buffer ext cursor start nd hwf.2 hrs
          obtain ⟨g1, rfl⟩ : ∃ g1, g = g1 + 1 := by
            cases g with
            | zero => simp [processState] at hg
            | succ k => exact ⟨k, rfl⟩
          simp only [processState] at hg
          rcases hm with heq | ⟨e1, e2, he1, he2⟩
          · refine ⟨g1 + 1, r, ?_, errMatch_refl r⟩
            simp only [processState]
            rw [heq]
            exact hg
          · rw [he2] at hg
            simp only [Option.some.injEq] at hg
            refine ⟨1, Except.error e1, ?_, Or.inr ⟨e2, e1, hg.symm, rfl⟩⟩
            simp only [processState, he1]
    | State.bulkString cursor start (Option.some size) =>
      simp only [processState] at h
      unfold bulkPhase2 at h
      split at h
      · exact absurd h (by simp)
      · rename_i hbig
        cases hrb : readbuffer buffer cursor size with
        | some pr =>
          obtain ⟨data, e3⟩ := pr
          simp only [hrb] at h
          exact absurd h (by simp)
        | none =>
          simp only [hrb, Option.some.injEq, Except.ok.injEq,
            StateResult.incomplete.injEq] at h
          subst h
          exact ⟨g, r, hg, errMatch_refl r⟩
    | State.array cursor start Option.none eo so =>
      have hwb := State.wf_array_bounds hwf
      simp only [processState] at h
      cases hrs : readsize buffer cursor start with
      | error e =>
        rw [hrs] at h
        exact absurd h (by simp)
      | ok rr =>
        match rr with
        | ReadsizeResult.null nd =>
          simp only [hrs] at h
          exact absurd h (by simp)
        | ReadsizeResult.size nd sz =>
          simp only [hrs] at h
          split at h
          · exact absurd h (by simp)
          · rename_i hz
            have hb := readsize_size_bounds hrs
            have hws := hwb.1
            have hwc := hwb.2
            have hwf2 : State.wf buffer.length
                (State.array nd start (Option.some sz) (Option.some []) Option.none) :=
              ⟨by omega, by omega, trivial⟩
            obtain ⟨h2, r2, hrun, hm⟩ := ih _ s' hwf2 h g r hg
            refine ⟨h2 + 1, r2, ?_, hm⟩
            simp only [processState]
            simp only [readsize_extend_agree buffer ext cursor start _ hrs (by simp)]
            rw [if_neg hz]
            exact hrun
        | ReadsizeResult.none nd =>
          simp only [hrs, Option.some.injEq, Except.ok.injEq,
            StateResult.incomplete.injEq] at h
          subst h
          have hm := readsize_resume buffer ext cursor start nd hwb.2 hrs
          obtain ⟨g1, rfl⟩ : ∃ g1, g = g1 + 1 := by
            cases g with
            | zero => simp [processState] at hg
            | succ k => exact ⟨k, rfl⟩
          simp only [processState] at hg
          rcases hm with heq | ⟨e1, e2, he1, he2⟩
          · refine ⟨g1 + 1, r, ?_, errMatch_refl r⟩
            simp only [processState]
            rw [heq]
            exact hg
          · rw [he2] at hg
            simp only [Option.some.injEq] at hg
            refine ⟨1, Except.error e1, ?_, Or.inr ⟨e2, e1, hg.symm, rfl⟩⟩
            simp only [processState, he1]
    | State.array cursor start (Option.some size) eo so =>
      have hwb := State.wf_array_bounds hwf
      simp only [processState] at h
      split at h
      · exact absurd h (by simp)
      · rename_i hbig
        split at h
        · rename_i hlt
          have hws := hwb.1
          have hwc := hwb.2
          have hwfc : State.wf buffer.length (so.getD (State.getType cursor)) := by
            cases so with
            | none => exact hwf.2.1
            | some sub => exact hwf.2.2.1
          have hcchild : cursor ≤ State.cursorOf (so.getD (State.getType cursor)) := by
            cases so with
            | none => simp only [Option.getD, State.cursorOf]; exact Nat.le_refl _
            | some sub => exact hwf.2.2.2
          cases hch : processState config buffer n (so.getD (State.getType cursor)) with
          | none =>
            rw [hch] at h
            exact absurd h (by simp)
          | some rc =>
            simp only [hch] at h
            match rc with
            | Except.error e => exact absurd h (by simp)
            | Except.ok (StateResult.done v e2) =>
              have hpsc := processState_wf config buffer n _ _ hwfc hch
              have he2 := hpsc.2 v e2 rfl
              have hwfcont : State.wf buffer.length
                  (State.array e2 start (Option.some size)
                    (Option.some (eo.getD [] ++ [v])) Option.none) :=
                ⟨by omega, by omega, trivial⟩
              obtain ⟨h2, r2, hrun, hm⟩ := ih _ s' hwfcont h g r hg
              have hchx := processState_extend config buffer ext n _ _ hch
                (by intro s3 hx; simp at hx)
              refine ⟨max n h2 + 1, r2, ?_, hm⟩
              simp only [processState]
              rw [if_neg hbig, if_pos hlt]
              simp only [processState_mono config (buffer ++ ext) n _ _ hchx
                (max n h2) (Nat.le_max_left _ _)]
              exact processState_mono config (buffer ++ ext) h2 _ r2 hrun
                (max n h2) (Nat.le_max_right _ _)
            | Except.ok (StateResult.incomplete c1) =>
              simp only [Option.some.injEq, Except.ok.injEq,
                StateResult.incomplete.injEq] at h
              subst h
              obtain ⟨g1, rfl⟩ : ∃ g1, g = g1 + 1 := by
                cases g with
                | zero => simp [processState] at hg
                | succ k => exact ⟨k, rfl⟩
              simp only [processState, Option.getD_some] at hg
              rw [if_neg hbig, if_pos hlt] at hg
              cases hch2 : processState config (buffer ++ ext) g1 c1 with
              | none =>
                rw [hch2] at hg
                exact absurd hg (by simp)
              | some rc1 =>
                simp only [hch2] at hg
                obtain ⟨hc2, rc2, hrunc, hmc⟩ := ih _ c1 hwfc hch g1 rc1 hch2
                rcases hmc with heqc | ⟨ec1, ec2, hec1, hec2⟩
                · subst heqc
                  match rc1 with
                  | Except.error e =>
                    simp only [Option.some.injEq] at hg
                    refine ⟨hc2 + 1, r, ?_, errMatch_refl r⟩
                    simp only [processState]
                    rw [if_neg hbig, if_pos hlt]
                    simp only [hrunc]
                    rw [hg]
                  | Except.ok (StateResult.incomplete c2) =>
                    simp only [Option.some.injEq] at hg
                    refine ⟨hc2 + 1, r, ?_, errMatch_refl r⟩
                    simp only [processState]
                    rw [if_neg hbig, if_pos hlt]
                    simp only [hrunc]
                    rw [hg]
                  | Except.ok (StateResult.done v e2) =>
                    refine ⟨max hc2 g1 + 1, r, ?_, errMatch_refl r⟩
                    simp only [processState]
                    rw [if_neg hbig, if_pos hlt]
                    simp only [processState_mono config (buffer ++ ext) hc2 _ _ hrunc
                      (max hc2 g1) (Nat.le_max_left _ _)]
                    exact processState_mono config (buffer ++ ext) g1 _ r hg
                      (max hc2 g1) (Nat.le_max_right _ _)
                · rw [hec1] at hg
                  simp only [Option.some.injEq] at hg
                  refine ⟨hc2 + 1, Except.error ec2, ?_,
                    Or.inr ⟨ec1, ec2, hg.symm, rfl⟩⟩
                  simp only [processState]
                  rw [if_neg hbig, if_pos hlt]
                  rw [hec2] at hrunc
                  simp only [hrunc]
        · rename_i hlt
          exact absurd h (by simp)

theorem readLoop_mono (config : RespConfig) :
    ∀ (lf pf : Nat) (buffer : List Nat) (items : List RespType)
      (out : Except ParserError (List RespType) × List Nat × Option State),
      readLoop config pf lf buffer items = Option.some out →
      ∀ pf2 lf2, pf ≤ pf2 → lf ≤ lf2 →
        readLoop config pf2 lf2 buffer items = Option.some out := by
  intro lf
  induction lf with
  | zero =>
    intro pf buffer items out h
    simp [readLoop] at h
  | succ n ih =>
    intro pf buffer items out h pf2 lf2 hpf hlf
    obtain ⟨m, rfl⟩ : ∃ m, lf2 = m + 1 := ⟨lf2 - 1, by omega⟩
    simp only [readLoop] at h ⊢
    cases hps : processState config buffer pf (State.getType 0) with
    | none =>
      rw [hps] at h
      exact absurd h (by simp)
    | some r0 =>
      simp only [hps] at h
      simp only [processState_mono config buffer pf _ _ hps pf2 hpf]
      match r0 with
      | Except.error e => exact h
      | Except.ok (StateResult.incomplete s1) => exact h
      | Except.ok (StateResult.done v e2) => exact ih pf _ _ out h pf2 m hpf (by omega)

theorem readLoop_det (config : RespConfig) {pf lf pf2 lf2 : Nat} {buffer : List Nat}
    {items : List RespType}
    {out1 out2 : Except ParserError (List RespType) × List Nat × Option State}
    (h1 : readLoop config pf lf buffer items = Option.some out1)
    (h2 : readLoop config pf2 lf2 buffer items = Option.some out2) : out1 = out2 := by
  have m1 := readLoop_mono config lf pf buffer items out1 h1 (max pf pf2) (max lf lf2)
    (Nat.le_max_left _ _) (Nat.le_max_left _ _)
  have m2 := readLoop_mono config lf2 pf2 buffer items out2 h2 (max pf pf2) (max lf lf2)
    (Nat.le_max_right _ _) (Nat.le_max_right _ _)
  rw [m1] at m2
  injection m2

theorem readLoop_items_ok (config : RespConfig) :
    ∀ (lf pf : Nat) (buffer : List Nat) (items l : List RespType)
      (buf : List Nat) (st : Option State),
      readLoop config pf lf buffer items = Option.some (Except.ok l, buf, st) →
      ∀ pre, readLoop config pf lf buffer (pre ++ items) =
        Option.some (Except.ok (pre ++ l), buf, st) := by
  intro lf
  induction lf with
  | zero =>
    intro pf buffer items l buf st h
    simp [readLoop] at h
  | succ n ih =>
    intro pf buffer items l buf st h pre
    simp only [readLoop] at h ⊢
    cases hps : processState config buffer pf (State.getType 0) with
    | none =>
      rw [hps] at h
      exact absurd h (by simp)
    | some r0 =>
      simp only [hps] at h ⊢
      match r0 with
      | Except.error e =>
        exact absurd h (by simp)
      | Except.ok (StateResult.incomplete s1) =>
        have h0 := Option.some.inj h
        injection h0 with ha hbc
        injection hbc with hb hc
        injection ha with hl
        subst hl
        subst hb
        subst hc
        rfl
      | Except.ok (StateResult.done v e2) =>
        have hx := ih pf _ _ l buf st h pre
        rw [← List.append_assoc] at hx
        exact hx

theorem readLoop_items_inv (config : RespConfig) :
    ∀ (lf pf : Nat) (buffer : List Nat) (items l : List RespType)
      (buf : List Nat) (st : Option State),
      readLoop config pf lf buffer items = Option.some (Except.ok l, buf, st) →
      ∃ nw, l = items ++ nw ∧
        readLoop config pf lf buffer [] = Option.some (Except.ok nw, buf, st) := by
  intro lf
  induction lf with
  | zero =>
    intro pf buffer items l buf st h
    simp [readLoop] at h
  | succ n ih =>
    intro pf buffer items l buf st h
    simp only [readLoop] at h ⊢
    cases hps : processState config buffer pf (State.getType 0) with
    | none =>
      rw [hps] at h
      exact absurd h (by simp)
    | some r0 =>
      simp only [hps] at h ⊢
      match r0 with
      | Except.error e =>
        exact absurd h (by simp)
      | Except.ok (StateResult.incomplete s1) =>
        have h0 := Option.some.inj h
        injection h0 with ha hbc
        injection hbc with hb hc
        injection ha with hl
        subst hl
        subst hb
        subst hc
        exact ⟨[], by rw [List.append_nil], rfl⟩
      | Except.ok (StateResult.done v e2) =>
        obtain ⟨nw2, hl, hrun⟩ := ih pf _ _ l buf st h
        refine ⟨v :: nw2, ?_, ?_⟩
        · rw [hl, List.append_assoc]
          rfl
        · have := readLoop_items_ok config n pf _ _ _ _ _ hrun [v]
          rw [List.append_nil] at this
          exact this

theorem readLoop_ok_state (config : RespConfig) :
    ∀ (lf pf : Nat) (buffer : List Nat) (items l : List RespType)
      (buf : List Nat) (st : Option State),
      readLoop config pf lf buffer items = Option.some (Except.ok l, buf, st) →
      ∃ sM, st = Option.some sM := by
  intro lf
  induction lf with
  | zero =>
    intro pf buffer items l buf st h
    simp [readLoop] at h
  | succ n ih =>
    intro pf buffer items l buf st h
    simp only [readLoop] at h
    cases hps : processState config buffer pf (State.getType 0) with
    | none =>
      rw [hps] at h
      exact absurd h (by simp)
    | some r0 =>
      simp only [hps] at h
      match r0 with
      | Except.error e =>
        exact absurd h (by simp)
      | Except.ok (StateResult.incomplete s1) =>
        have h0 := Option.some.inj h
        injection h0 with ha hbc
        injection hbc with hb hc
        exact ⟨s1, hc.symm⟩
      | Except.ok (StateResult.done v e2) =>
        exact ih pf _ _ l buf st h

theorem readLoop_buf_le (config : RespConfig) :
    ∀ (lf pf : Nat) (buffer : List Nat) (items l : List RespType)
      (buf : List Nat) (st : Option State),
      readLoop config pf lf buffer items = Option.some (Except.ok l, buf, st) →
      buf.length ≤ buffer.length := by
  intro lf
  induction lf with
  | zero =>
    intro pf buffer items l buf st h
    simp [readLoop] at h
  | succ n ih =>
    intro pf buffer items l buf st h
    simp only [readLoop] at h
    cases hps : processState config buffer pf (State.getType 0) with
    | none =>
      rw [hps] at h
      exact absurd h (by simp)
    | some r0 =>
      simp only [hps] at h
      match r0 with
      | Except.error e =>
        exact absurd h (by simp)
      | Except.ok (StateResult.incomplete s1) =>
        have h0 := Option.some.inj h
        injection h0 with ha hbc
        injection hbc with hb hc
        subst hb
        exact Nat.le_refl _
      | Except.ok (StateResult.done v e2) =>
        have := ih pf _ _ l buf st h
        have hd : (buffer.drop e2).length ≤ buffer.length := by
          rw [List.length_drop]
          omega
        omega

theorem readLoop_sim (config : RespConfig) (ext : List Nat) :
    ∀ (lf pf : Nat) (buffer : List Nat) (items : List RespType)
      (res : Except ParserError (List RespType)) (bufR : List Nat) (stR : Option State)
      (PF LF : Nat) (vsAll : List RespType) (rem : List Nat) (sLast : State),
      readLoop config pf lf buffer items = Option.some (res, bufR, stR) →
      readLoop config PF LF (buffer ++ ext) items =
        Option.some (Except.ok vsAll, rem, Option.some sLast) →
      ∃ vsMid sM,
        res = Except.ok vsMid ∧ stR = Option.some sM ∧
        (∃ fps, processState config bufR fps (State.getType 0) =
          Option.some (Except.ok (StateResult.incomplete sM))) ∧
        (∃ PF2 LF2, readLoop config PF2 LF2 (bufR ++ ext) vsMid =
          Option.some (Except.ok vsAll, rem, Option.some sLast)) := by
  intro lf
  induction lf with
  | zero =>
    intro pf buffer items res bufR stR PF LF vsAll rem sLast h hbig
    simp [readLoop] at h
  | succ n ih =>
    intro pf buffer items res bufR stR PF LF vsAll rem sLast h hbig
    have hbig0 := hbig
    simp only [readLoop] at h
    cases hps : processState config buffer pf (State.getType 0) with
    | none =>
      rw [hps] at h
      exact absurd h (by simp)
    | some r0 =>
      simp only [hps] at h
      obtain ⟨M, rfl⟩ : ∃ M, LF = M + 1 := by
        cases LF with
        | zero => simp [readLoop] at hbig
        | succ k => exact ⟨k, rfl⟩
      simp only [readLoop] at hbig
      match r0 with
      | Except.error e =>
        have hex := processState_extend config buffer ext pf _ _ hps
          (by intro s2 hx; simp at hx)
        cases hPS : processState config (buffer ++ ext) PF (State.getType 0) with
        | none =>
          rw [hPS] at hbig
          exact absurd hbig (by simp)
        | some R0 =>
          have hR0 : R0 = Except.error e :=
            processState_det config (buffer ++ ext) hPS hex
          subst hR0
          simp only [hPS] at hbig
          exact absurd hbig (by simp)
      | Except.ok (StateResult.incomplete s1) =>
        have h0 := Option.some.inj h
        injection h0 with ha hbc
        injection hbc with hb hc
        subst hb
        exact ⟨items, s1, ha.symm, hc.symm, ⟨pf, hps⟩, ⟨PF, M + 1, hbig0⟩⟩
      | Except.ok (StateResult.done v e2) =>
        have hex := processState_extend config buffer ext pf _ _ hps
          (by intro s2 hx; simp at hx)
        cases hPS : processState config (buffer ++ ext) PF (State.getType 0) with
        | none =>
          rw [hPS] at hbig
          exact absurd hbig (by simp)
        | some R0 =>
          have hR0 : R0 = Except.ok (StateResult.done v e2) :=
            processState_det config (buffer ++ ext) hPS hex
          subst hR0
          simp only [hPS] at hbig
          have he2 : e2 ≤ buffer.length := by
            have hpsc := processState_wf config buffer pf _ _ (Nat.zero_le _) hps
            exact (hpsc.2 v e2 rfl).2
          rw [drop_append_le buffer ext e2 he2] at hbig
          exact ih pf (buffer.drop e2) (items ++ [v]) res bufR stR PF M vsAll rem sLast
            h hbig

theorem feedAll_sim (config : RespConfig) :
    ∀ (chunks : List (List Nat)) (G : Nat) (rem : List Nat) (sM : State)
      (res : Except ParserError (List (List RespType))) (q : RespParser)
      (vsAll : List RespType) (remF : List Nat) (sLast : State),
      feedAll G ⟨rem, Option.some sM, config⟩ chunks = Option.some (res, q) →
      (∃ fps, processState config rem fps (State.getType 0) =
        Option.some (Except.ok (StateResult.incomplete sM))) →
      (∃ PF LF, readLoop config PF LF (rem ++ chunks.join) [] =
        Option.some (Except.ok vsAll, remF, Option.some sLast)) →
      (rem ++ chunks.join).length ≤ config.max_buffer_size →
      ∃ lss, res = Except.ok lss ∧ lss.join = vsAll ∧
        q = ⟨remF, Option.some sLast, config⟩ := by
  intro chunks
  induction chunks with
  | nil =>
    intro G rem sM res q vsAll remF sLast hfeed hev hbig hlen
    simp only [feedAll] at hfeed
    have h0 := Option.some.inj hfeed
    injection h0 with ha hb
    obtain ⟨PF, LF, hrl⟩ := hbig
    rw [show List.join ([] : List (List Nat)) = [] from rfl, List.append_nil] at hrl
    obtain ⟨fps, hps⟩ := hev
    obtain ⟨M, rfl⟩ : ∃ M, LF = M + 1 := by
      cases LF with
      | zero => simp [readLoop] at hrl
      | succ k => exact ⟨k, rfl⟩
    simp only [readLoop] at hrl
    cases hPS : processState config rem PF (State.getType 0) with
    | none =>
      rw [hPS] at hrl
      exact absurd hrl (by simp)
    | some R0 =>
      have hR0 : R0 = Except.ok (StateResult.incomplete sM) :=
        processState_det config rem hPS hps
      subst hR0
      simp only [hPS] at hrl
      have h1 := Option.some.inj hrl
      injection h1 with hA hBC
      injection hBC with hB hC
      injection hA with hvs
      refine ⟨[], ha.symm, by rw [← hvs]; rfl, ?_⟩
      rw [← hb, hB, hC]
  | cons c cs ih =>
    intro G rem sM res q vsAll remF sLast hfeed hev hbig hlen
    have hlen2 : (rem ++ c).length + cs.join.length ≤ config.max_buffer_size := by
      rw [show (c :: cs).join = c ++ cs.join from rfl] at hlen
      simp only [List.length_append] at hlen ⊢
      omega
    simp only [feedAll] at hfeed
    cases hrd : RespParser.read G ⟨rem, Option.some sM, config⟩ c with
    | none =>
      rw [hrd] at hfeed
      exact absurd hfeed (by simp)
    | some pr =>
      obtain ⟨r1, q1⟩ := pr
      simp only [hrd] at hfeed
      have hread := hrd
      simp only [RespParser.read] at hread
      rw [if_neg (show ¬ config.max_buffer_size < (rem ++ c).length by
        rw [List.length_append] at hlen2 ⊢
        omega)] at hread
      cases hch : processState config (rem ++ c) G sM with
      | none =>
        rw [hch] at hread
        exact absurd hread (by simp)
      | some rc =>
        simp only [hch] at hread
        obtain ⟨fps, hps⟩ := hev
        obtain ⟨h2, rc2, hrun2, hm⟩ := processState_resume config rem c fps
          (State.getType 0) sM (Nat.zero_le _) hps G rc hch
        obtain ⟨PF, LF, hrl⟩ := hbig
        rw [show rem ++ (c :: cs).join = (rem ++ c) ++ cs.join by
          simp [List.join, List.append_assoc]] at hrl
        match rc with
        | Except.error e =>
          have hrc2e : ∃ e2, rc2 = Except.error e2 := by
            rcases hm with heq | ⟨ea, eb, hea, heb⟩
            · exact ⟨e, heq.symm⟩
            · exact ⟨eb, heb⟩
          obtain ⟨e2, he2⟩ := hrc2e
          rw [he2] at hrun2
          have hexe := processState_extend config (rem ++ c) cs.join h2 _ _ hrun2
            (by intro s2 hx; simp at hx)
          obtain ⟨M, rfl⟩ : ∃ M, LF = M + 1 := by
            cases LF with
            | zero => simp [readLoop] at hrl
            | succ k => exact ⟨k, rfl⟩
          simp only [readLoop] at hrl
          cases hPS : processState config ((rem ++ c) ++ cs.join) PF
              (State.getType 0) with
          | none =>
            rw [hPS] at hrl
            exact absurd hrl (by simp)
          | some R0 =>
            have hR0 : R0 = Except.error e2 :=
              processState_det config _ hPS hexe
            subst hR0
            simp only [hPS] at hrl
            exact absurd hrl (by simp)
        | Except.ok (StateResult.incomplete s1) =>
          have hrc2 : rc2 = Except.ok (StateResult.incomplete s1) := by
            rcases hm with heq | ⟨ea, eb, hea, heb⟩
            · exact heq.symm
            · exact absurd hea (by simp)
          subst hrc2
          have h0 := Option.some.inj hread
          injection h0 with ha hb
          subst ha
          subst hb
          cases hfd : feedAll G ⟨rem ++ c, Option.some s1, config⟩ cs with
          | none =>
            simp only [hfd] at hfeed
            exact absurd hfeed (by simp)
          | some pr2 =>
            obtain ⟨res2, q2⟩ := pr2
            simp only [hfd] at hfeed
            obtain ⟨lss, hres2, hjoin, hq2⟩ := ih G (rem ++ c) s1 res2 q2 vsAll remF
              sLast hfd ⟨h2, hrun2⟩ ⟨PF, LF, hrl⟩
              (by rw [List.length_append]; omega)
            subst hres2
            have h1 := Option.some.inj hfeed
            injection h1 with hr hq
            refine ⟨[] :: lss, hr.symm, ?_, ?_⟩
            · rw [show (([] : List RespType) :: lss).join = [] ++ lss.join from rfl,
                List.nil_append]
              exact hjoin
            · rw [← hq]
              exact hq2
        | Except.ok (StateResult.done v e2) =>
          have hrc2 : rc2 = Except.ok (StateResult.done v e2) := by
            rcases hm with heq | ⟨ea, eb, hea, heb⟩
            · exact heq.symm
            · exact absurd hea (by simp)
          subst hrc2
          have hread2 : (match readLoop config G G (List.drop e2 (rem ++ c)) [v] with
              | Option.none => Option.none
              | Option.some (r, buf, st) =>
                Option.some (r, (⟨buf, st, config⟩ : RespParser))) =
              Option.some (r1, q1) := hread
          cases hrlsmall : readLoop config G G (List.drop e2 (rem ++ c)) [v] with
          | none =>
            rw [hrlsmall] at hread2
            exact absurd hread2 (by simp)
          | some pr2 =>
            obtain ⟨r2, buf3, st3⟩ := pr2
            simp only [hrlsmall] at hread2
            have h0 := Option.some.inj hread2
            injection h0 with ha hb
            subst ha
            subst hb
            have hexd := processState_extend config (rem ++ c) cs.join h2 _ _ hrun2
              (by intro s2 hx; simp at hx)
            obtain ⟨M, rfl⟩ : ∃ M, LF = M + 1 := by
              cases LF with
              | zero => simp [readLoop] at hrl
              | succ k => exact ⟨k, rfl⟩
            simp only [readLoop] at hrl
            cases hPS : processState config ((rem ++ c) ++ cs.join) PF
                (State.getType 0) with
            | none =>
              rw [hPS] at hrl
              exact absurd hrl (by simp)
            | some R0 =>
              have hR0 : R0 = Except.ok (StateResult.done v e2) :=
                processState_det config _ hPS hexd
              subst hR0
              simp only [hPS] at hrl
              have he2le : e2 ≤ (rem ++ c).length := by
                have hpsc := processState_wf config (rem ++ c) h2 _ _
                  (Nat.zero_le _) hrun2
                exact (hpsc.2 v e2 rfl).2
              rw [drop_append_le (rem ++ c) cs.join e2 he2le] at hrl
              obtain ⟨vsMid, sM3, hr2, hst3, hps3, PF2, LF2, hrl3⟩ :=
                readLoop_sim config cs.join G G ((rem ++ c).drop e2) [v] r2 buf3
                  st3 PF M vsAll remF sLast hrlsmall hrl
              subst hr2
              subst hst3
              obtain ⟨vsTail, hvsAll, hrl4⟩ := readLoop_items_inv config LF2 PF2
                (buf3 ++ cs.join) vsMid vsAll remF (Option.some sLast) hrl3
              cases hfd : feedAll G ⟨buf3, Option.some sM3, config⟩ cs with
              | none =>
                simp only [hfd] at hfeed
                exact absurd hfeed (by simp)
              | some pr3 =>
                obtain ⟨res2, q2⟩ := pr3
                simp only [hfd] at hfeed
                have hb3 := readLoop_buf_le config G G ((rem ++ c).drop e2) [v]
                  vsMid buf3 _ hrlsmall
                obtain ⟨lss, hres2, hjoin, hq2⟩ := ih G buf3 sM3 res2 q2 vsTail
                  remF sLast hfd hps3 ⟨PF2, LF2, hrl4⟩
                  (by
                    rw [List.length_append]
                    rw [List.length_drop] at hb3
                    omega)
                subst hres2
                have h1 := Option.some.inj hfeed
                injection h1 with hr hq
                refine ⟨vsMid :: lss, hr.symm, ?_, ?_⟩
                · rw [show (vsMid :: lss).join = vsMid ++ lss.join from rfl, hjoin,
                    hvsAll]
                · rw [← hq]
                  exact hq2

/-- C1 counterexample to unconditional fragmentation invariance: with
`max_buffer_size = 5`, the eight bytes "+a\r\n+b\r\n" fed at once trip the
buffer limit and return `SizeExceeded`, while the same bytes fed as two
four-byte chunks parse to SimpleString "a" and SimpleString "b". -/
theorem claim_C1_counterexample :
    (RespParser.read 10 (RespParser.new (RespConfig.new 100 5))
        [43, 97, 13, 10, 43, 98, 13, 10] =
      Option.some (Except.error ParserError.sizeExceededError,
        ⟨[], Option.none, RespConfig.new 100 5⟩)) ∧
    feedAll 10 (RespParser.new (RespConfig.new 100 5))
        [[43, 97, 13, 10], [43, 98, 13, 10]] =
      Option.some
        (Except.ok [[RespType.simpleString [97]], [RespType.simpleString [98]]],
        ⟨[], Option.some (State.getType 0), RespConfig.new 100 5⟩) :=
  ⟨rfl, rfl⟩

/-- C1 (amended): fragmentation invariance holds whenever the single-shot read
itself succeeds: if feeding the whole byte sequence to a fresh parser returns
`Ok vs`, then feeding it as any sequence of consecutive chunks returns `Ok`
per chunk and the concatenation of the per-chunk value lists is exactly `vs`.
(The unamended claim fails because a large single feed can trip
`max_buffer_size` where small drained feeds do not.) -/
theorem claim_C1_fragmentation_amended (config : RespConfig)
    (chunks : List (List Nat)) (F G : Nat) (vs : List RespType) (p1 : RespParser)
    (res : Except ParserError (List (List RespType))) (q : RespParser)
    (hsingle : RespParser.read F (RespParser.new config) chunks.join =
      Option.some (Except.ok vs, p1))
    (hfeed : feedAll G (RespParser.new config) chunks = Option.some (res, q)) :
    ∃ lss, res = Except.ok lss ∧ lss.join = vs := by
  simp only [RespParser.read, RespParser.new, List.nil_append] at hsingle
  split at hsingle
  · exact absurd hsingle (by simp)
  · rename_i hlimit
    cases hrl : readLoop config F F chunks.join [] with
    | none =>
      rw [hrl] at hsingle
      exact absurd hsingle (by simp)
    | some pr =>
      obtain ⟨r0, buf0, st0⟩ := pr
      simp only [hrl] at hsingle
      have h0 := Option.some.inj hsingle
      injection h0 with ha hb
      subst ha
      obtain ⟨sLast, hst⟩ := readLoop_ok_state config F F chunks.join [] vs buf0 st0 hrl
      subst hst
      cases chunks with
      | nil =>
        simp only [feedAll] at hfeed
        have h1 := Option.some.inj hfeed
        injection h1 with hres hq
        rw [show List.join ([] : List (List Nat)) = [] from rfl] at hrl
        obtain ⟨f1, rfl⟩ : ∃ f1, F = f1 + 1 := by
          cases F with
          | zero => simp [readLoop] at hrl
          | succ k => exact ⟨k, rfl⟩
        have hempty := readLoop_emptybuf config f1 f1 ([] : List RespType)
        have hdet := readLoop_det config hrl hempty
        injection hdet with hA hBC
        injection hA with hvs
        exact ⟨[], hres.symm, by rw [hvs]; rfl⟩
      | cons c cs =>
        rw [show (c :: cs).join = c ++ cs.join from rfl] at hrl hlimit
        simp only [feedAll] at hfeed
        cases hrd : RespParser.read G (RespParser.new config) c with
        | none =>
          rw [hrd] at hfeed
          exact absurd hfeed (by simp)
        | some pr1 =>
          obtain ⟨r1, q1⟩ := pr1
          simp only [hrd] at hfeed
          simp only [RespParser.read, RespParser.new, List.nil_append] at hrd
          split at hrd
          · rename_i hl
            exfalso
            rw [List.length_append] at hlimit
            omega
          · cases hrls : readLoop config G G c [] with
            | none =>
              rw [hrls] at hrd
              exact absurd hrd (by simp)
            | some pr2 =>
              obtain ⟨r2, buf2, st2⟩ := pr2
              simp only [hrls] at hrd
              have h2 := Option.some.inj hrd
              injection h2 with hc hd
              subst hc
              subst hd
              obtain ⟨vsMid, sM3, hr2, hst2, hps3, PF2, LF2, hrl3⟩ :=
                readLoop_sim config cs.join G G c [] r2 buf2 st2 F F vs buf0 sLast
                  hrls hrl
              subst hr2
              subst hst2
              obtain ⟨vsTail, hvs, hrl4⟩ := readLoop_items_inv config LF2 PF2
                (buf2 ++ cs.join) vsMid vs buf0 (Option.some sLast) hrl3
              cases hfd : feedAll G ⟨buf2, Option.some sM3, config⟩ cs with
              | none =>
                simp only [hfd] at hfeed
                exact absurd hfeed (by simp)
              | some pr3 =>
                obtain ⟨res2, q2⟩ := pr3
                simp only [hfd] at hfeed
                have hble := readLoop_buf_le config G G c [] vsMid buf2 _ hrls
                obtain ⟨lss, hres2, hjoin, hq2⟩ := feedAll_sim config cs G buf2 sM3
                  res2 q2 vsTail buf0 sLast hfd hps3 ⟨PF2, LF2, hrl4⟩
                  (by
                    rw [List.length_append]
                    rw [List.length_append] at hlimit
                    omega)
                subst hres2
                have h3 := Option.some.inj hfeed
                injection h3 with hres hq
                refine ⟨vsMid :: lss, hres.symm, ?_⟩
                rw [show (vsMid :: lss).join = vsMid ++ lss.join from rfl, hjoin, hvs]

/-- Concrete fragmentation instance: "+a\r\n" fed whole gives
[SimpleString "a"]; fed as "+a" then "\r\n" gives [] then [SimpleString "a"],
and the concatenation matches. -/
theorem claim_C1_fragmentation_amended_witness :
    ∃ lss, (Except.ok [[], [RespType.simpleString [97]]] :
        Except ParserError (List (List RespType))) = Except.ok lss ∧
      lss.join = [RespType.simpleString [97]] :=
  claim_C1_fragmentation_amended (RespConfig.new 100 100) [[43, 97], [13, 10]] 5 5
    [RespType.simpleString [97]]
    ⟨[], Option.some (State.getType 0), RespConfig.new 100 100⟩
    (Except.ok [[], [RespType.simpleString [97]]])
    ⟨[], Option.some (State.getType 0), RespConfig.new 100 100⟩
    rfl rfl
